import Mathlib

/-!
Shallow embedding of the query planner of the gss-DB2025 repository
(`src/src/optimizer/planner.cpp`) and of the sequential-scan executor
(`src/src/execution/executor_seq_scan.h`), together with theorems settling
the spec claims about them.

Machine integers of the source are modelled as `Nat`; `std::set` iteration
is modelled as a sorted deduplicated list; fallible code returns `Except`.
-/

namespace GssDB

/-- Comparison operators, `CompOp` in the source. -/
inductive CompOp where
  | OP_EQ | OP_NE | OP_LT | OP_GT | OP_LE | OP_GE
deriving DecidableEq, Repr

/-- Column reference `TabCol { tab_name, col_name }`. -/
structure TabCol where
  tab_name : String
  col_name : String
deriving DecidableEq, Repr

/-- A literal value; the planner never inspects the payload, only copies it,
so it is modelled by an identifier. -/
structure Value where
  id : Nat
deriving DecidableEq, Repr

/-- `Condition { lhs_col, op, rhs_col, is_rhs_val, rhs_val }`. -/
structure Condition where
  lhs_col : TabCol
  op : CompOp
  rhs_col : TabCol
  is_rhs_val : Bool
  rhs_val : Value
deriving DecidableEq, Repr

/-- Scan access-path tags `T_SeqScan` / `T_IndexScan`. -/
inductive ScanTag where
  | T_SeqScan | T_IndexScan
deriving DecidableEq, Repr

/-- Join algorithm tags `T_NestLoop` / `T_SortMerge`. -/
inductive JoinAlgo where
  | T_NestLoop | T_SortMerge
deriving DecidableEq, Repr

/-- The plan tree (`ScanPlan`, `JoinPlan`, `FilterPlan`, `ProjectionPlan`,
`SortPlan`).  `nullp` models a null `std::shared_ptr<Plan>`, which the
source can produce (`pop_scan` returns `nullptr` on a miss). -/
inductive Plan where
  | nullp
  | scan (tag : ScanTag) (tab_name : String) (conds : List Condition)
      (fed_conds : List Condition) (index_col_names : List String)
  | join (algo : JoinAlgo) (left : Plan) (right : Plan) (conds : List Condition)
  | filter (subplan : Plan) (conds : List Condition)
  | proj (subplan : Plan) (sel_cols : List TabCol)
  | sort (subplan : Plan) (sel_col : TabCol) (is_desc : Bool)
deriving DecidableEq, Repr

/-- The operator swap table used at both side-reversal sites
(`planner.cpp` lines 125-132 and 359-366). -/
def swap_op : CompOp → CompOp
  | .OP_EQ => .OP_EQ
  | .OP_NE => .OP_NE
  | .OP_LT => .OP_GT
  | .OP_GT => .OP_LT
  | .OP_LE => .OP_GE
  | .OP_GE => .OP_LE

/-- Side reversal of a condition as performed at both reversal sites:
`std::swap(lhs_col, rhs_col)` followed by `op = swap_op.at(op)`;
the other fields are untouched. -/
def reverseCond (c : Condition) : Condition :=
  { c with lhs_col := c.rhs_col, rhs_col := c.lhs_col, op := swap_op c.op }

/-! ## Catalog model (`SmManager` read-only view) -/

/-- Column metadata (`ColMeta`); the planner reads only `tab_name` and `name`. -/
structure ColMeta where
  tab_name : String
  name : String
deriving DecidableEq, Repr

/-- Table metadata (`TabMeta`): the column list and the set of indexes,
each index given by its column-name list. -/
structure TabMeta where
  cols : List ColMeta
  indexes : List (List String)
deriving DecidableEq, Repr

/-- Modelled from the spec: `TabMeta::is_index` is declared outside `src/`;
per spec §4.1 it reports whether an index on exactly the given column list
exists in the catalog. -/
def TabMeta.is_index (t : TabMeta) (cols : List String) : Bool :=
  t.indexes.contains cols

/-- File header statistics exposed by `RmFileHandle::get_file_hdr()`. -/
structure FileHdr where
  num_pages : Nat
  num_records_per_page : Nat
deriving DecidableEq, Repr

/-- The catalog adapter: `db_.get_table` (`none` models the catalog throwing
a table-not-found error) and the open-file-handle map `fhs_`
(`.error ()` models `get_file_hdr` throwing). -/
structure SmManager where
  tables : List (String × TabMeta)
  fhs : List (String × Except Unit FileHdr)
deriving Repr

def SmManager.get_table (sm : SmManager) (name : String) : Option TabMeta :=
  (sm.tables.find? (fun p => p.1 == name)).map Prod.snd

def SmManager.get_fh (sm : SmManager) (name : String) : Option (Except Unit FileHdr) :=
  (sm.fhs.find? (fun p => p.1 == name)).map Prod.snd

/-- Structured planner errors (`RMDBError` / `InternalError` in the source). -/
inductive PlanErr where
  | NoJoinExecutorSelected
  | TableNotFound (name : String)
deriving DecidableEq, Repr

/-! ## Index-match oracle (`get_index_cols`, planner.cpp lines 32-72) -/

/-- Insertion into a `std::set<std::string>` (kept sorted, no duplicates). -/
def setInsert (s : String) : List String → List String
  | [] => [s]
  | t :: ts =>
      if s < t then s :: t :: ts
      else if s == t then t :: ts
      else t :: setInsert s ts

/-- The operator test of `get_index_cols` (it enumerates all six members of
`CompOp`). -/
def indexableOp (op : CompOp) : Bool :=
  op == .OP_EQ || op == .OP_LT || op == .OP_GT ||
  op == .OP_LE || op == .OP_GE || op == .OP_NE

/-- The candidate columns collected by `get_index_cols`: columns `c` with a
condition `tab.c op literal`, any of the six operators, deduplicated through
a `std::set` (hence sorted). -/
def candidateCols (tab_name : String) (conds : List Condition) : List String :=
  conds.foldl
    (fun acc c =>
      if c.is_rhs_val && c.lhs_col.tab_name == tab_name && indexableOp c.op then
        setInsert c.lhs_col.col_name acc
      else acc)
    []

/-- `Planner::get_index_cols`: collect candidate columns, then prefer a
single-column index (in sorted candidate order), else an index on the whole
candidate list; the out-parameter `index_col_names` is returned alongside
the boolean and is *not* cleared on the failure path. -/
def get_index_cols (sm : SmManager) (tab_name : String) (curr_conds : List Condition) :
    Except PlanErr (Bool × List String) := do
  let index_col_names := candidateCols tab_name curr_conds
  let some tab := sm.get_table tab_name | .error (.TableNotFound tab_name)
  if index_col_names.isEmpty then
    .ok (false, index_col_names)
  else
    match index_col_names.find? (fun col => tab.is_index [col]) with
    | some col => .ok (true, [col])
    | none =>
        if tab.is_index index_col_names then .ok (true, index_col_names)
        else .ok (false, index_col_names)

/-! ## Predicate classifier (`pop_conds`, planner.cpp lines 81-96) -/

/-- The predicate deciding whether `pop_conds` claims a condition for table
`tab_names`: a literal comparison on that table, or a condition whose two
column sides name the same table. -/
def pop_conds_pred (tab_names : String) (c : Condition) : Bool :=
  (tab_names == c.lhs_col.tab_name && c.is_rhs_val) ||
  (c.lhs_col.tab_name == c.rhs_col.tab_name)

/-- `pop_conds`: removes and returns the claimed conditions; the source
mutates `conds` in place, modelled here by returning
`(solved_conds, remaining conds)`, both in original order. -/
def pop_conds (conds : List Condition) (tab_names : String) :
    List Condition × List Condition :=
  (conds.filter (pop_conds_pred tab_names),
   conds.filter (fun c => !pop_conds_pred tab_names c))

/-! ## Cross-predicate attachment (`push_conds`, planner.cpp lines 98-140) -/

/-- `push_conds`: walks the plan looking for the subtrees owning the two
sides of `cond`.  Returns the source's tri-state code (0/1/2/3, with 3 =
attached) together with the rewritten plan (the source mutates the plan and
the condition in place). -/
def push_conds (cond : Condition) : Plan → Nat × Plan
  | .scan tag tn cs fcs idx =>
      if tn == cond.lhs_col.tab_name then (1, .scan tag tn cs fcs idx)
      else if tn == cond.rhs_col.tab_name then (2, .scan tag tn cs fcs idx)
      else (0, .scan tag tn cs fcs idx)
  | .join algo l r cs =>
      let L := push_conds cond l
      if L.1 == 3 then (3, .join algo L.2 r cs)
      else
        let R := push_conds cond r
        if R.1 == 3 then (3, .join algo L.2 R.2 cs)
        else if L.1 == 0 || R.1 == 0 then
          (L.1 + R.1, .join algo L.2 R.2 cs)
        else if L.1 == 2 then
          (3, .join algo L.2 R.2 (cs ++ [reverseCond cond]))
        else
          (3, .join algo L.2 R.2 (cs ++ [cond]))
  | p => (0, p)

/-! ## Query envelope (SELECT path) -/

/-- `ast::OrderByDir` (from the grammar: ASC, DESC or default). -/
inductive OrderDir where
  | OrderBy_ASC | OrderBy_DESC | OrderBy_DEFAULT
deriving DecidableEq, Repr

/-- `ast::OrderBy`: the single sort column and direction. -/
structure OrderByClause where
  col_name : String
  orderby_dir : OrderDir
deriving DecidableEq, Repr

/-- The part of `ast::SelectStmt` the planner reads. -/
structure SelectAst where
  has_sort : Bool
  order : OrderByClause
deriving DecidableEq, Repr

/-- The planner's `Query` envelope (SELECT fields used by these passes). -/
structure Query where
  parse : SelectAst
  tables : List String
  cols : List TabCol
  conds : List Condition
  is_select_star : Bool
deriving DecidableEq, Repr

/-! ## Scan selection and join assembly (`make_one_rel`, planner.cpp 197-423) -/

/-- `pop_scan` (planner.cpp 142-153): find the scan plan for `table`, mark
its slot `1` in `scantbl`, append the table name to `joined_tables`;
returns the source's `nullptr` (`Plan.nullp`) when no scan matches. -/
def pop_scan (scantbl : List Int) (table : String) (joined_tables : List String)
    (plans : List Plan) : Plan × List Int × List String :=
  match plans.findIdx? (fun p =>
      match p with
      | .scan _ tn _ _ _ => tn == table
      | _ => false) with
  | some i => ((plans.get? i).getD .nullp, scantbl.set i 1, joined_tables ++ [table])
  | none => (.nullp, scantbl, joined_tables)

/-- Phase one of `make_one_rel` (lines 210-231): per table, pop its
single-table conditions and choose the access path.  The `ScanPlan`
constructor is declared outside `src/`; modelled from the spec (§4.4,
and `SeqScanExecutor`'s constructor): the scan stores `conds` and
`fed_conds` as initially identical copies. -/
def buildScans (sm : SmManager) : List String → List Condition →
    Except PlanErr (List Plan × List Condition)
  | [], conds => .ok ([], conds)
  | t :: ts, conds => do
      let curr_conds := (pop_conds conds t).1
      let rest := (pop_conds conds t).2
      let ic ← get_index_cols sm t curr_conds
      let scanp :=
        if ic.1 then
          Plan.scan .T_IndexScan t curr_conds curr_conds ic.2
        else
          Plan.scan .T_SeqScan t curr_conds curr_conds []
      let more ← buildScans sm ts rest
      .ok (scanp :: more.1, more.2)

/-- The mutable state of the join-assembly loop: the current root, the
per-table usage array and the joined-table list, plus an instrumentation
bit recording whether the both-tables-new case (lines 337-352) ever fired. -/
structure MkState where
  root : Plan
  scantbl : List Int
  joined_tables : List String
  usedBothNew : Bool
deriving DecidableEq, Repr

/-- The seed step (lines 267-306): join the two tables of the first
residual condition; join-algorithm selection from the two knobs, failing
with `NoJoinExecutorSelected` when both are off. -/
def seedStep (enable_nestedloop_join enable_sortmerge_join : Bool)
    (plans : List Plan) (scantbl0 : List Int) (joined0 : List String)
    (c : Condition) : Except PlanErr MkState :=
  let L := pop_scan scantbl0 c.lhs_col.tab_name joined0 plans
  let R := pop_scan L.2.1 c.rhs_col.tab_name L.2.2 plans
  if enable_nestedloop_join && enable_sortmerge_join then
    .ok { root := .join .T_NestLoop L.1 R.1 [c], scantbl := R.2.1,
          joined_tables := R.2.2, usedBothNew := false }
  else if enable_nestedloop_join then
    .ok { root := .join .T_NestLoop L.1 R.1 [c], scantbl := R.2.1,
          joined_tables := R.2.2, usedBothNew := false }
  else if enable_sortmerge_join then
    .ok { root := .join .T_SortMerge L.1 R.1 [c], scantbl := R.2.1,
          joined_tables := R.2.2, usedBothNew := false }
  else
    .error .NoJoinExecutorSelected

/-- One iteration of the extension loop (lines 313-389): classify the
condition by how many of its tables are new, then extend the tree (both
new: cross attachment; one new: side reversal if the new table is on the
right; neither new: `push_conds`). -/
def extStep (plans : List Plan) (st : MkState) (c : Condition) : MkState :=
  let L :=
    if st.joined_tables.contains c.lhs_col.tab_name then
      (Plan.nullp, st.scantbl, st.joined_tables)
    else pop_scan st.scantbl c.lhs_col.tab_name st.joined_tables plans
  let R :=
    if L.2.2.contains c.rhs_col.tab_name then
      (Plan.nullp, L.2.1, L.2.2, false)
    else
      let P := pop_scan L.2.1 c.rhs_col.tab_name L.2.2 plans
      (P.1, P.2.1, P.2.2, true)
  if L.1 != Plan.nullp && R.1 != Plan.nullp then
    let temp := Plan.join .T_NestLoop L.1 R.1 [c]
    { root := .join .T_NestLoop temp st.root [],
      scantbl := R.2.1, joined_tables := R.2.2.1, usedBothNew := true }
  else if L.1 != Plan.nullp || R.1 != Plan.nullp then
    let side := if R.2.2.2 then R.1 else L.1
    let c' := if R.2.2.2 then reverseCond c else c
    { root := .join .T_NestLoop side st.root [c'],
      scantbl := R.2.1, joined_tables := R.2.2.1, usedBothNew := st.usedBothNew }
  else
    { root := (push_conds c st.root).2,
      scantbl := R.2.1, joined_tables := R.2.2.1, usedBothNew := st.usedBothNew }

/-- Phase three (lines 410-418): attach every still-unused table by a
condition-free nested-loop join (Cartesian back-attachment). -/
def cartesianFallback (plans : List Plan) (scantbl : List Int) (root : Plan) : Plan :=
  (List.range plans.length).foldl
    (fun r i =>
      if scantbl.getD i (-1) == -1 then
        Plan.join .T_NestLoop ((plans.get? i).getD .nullp) r []
      else r)
    root

/-- `Planner::make_one_rel` with the extra instrumentation bit of
`MkState.usedBothNew` as second component. -/
def make_one_rel_aux (sm : SmManager)
    (enable_nestedloop_join enable_sortmerge_join : Bool) (q : Query) :
    Except PlanErr (Plan × Bool) := do
  let tables := q.tables
  let (table_scan_executors, conds) ← buildScans sm tables q.conds
  if tables.length == 1 then
    .ok (table_scan_executors.headD .nullp, false)
  else
    let scantbl0 : List Int := List.replicate tables.length (-1)
    match conds with
    | [] =>
        let root := table_scan_executors.headD .nullp
        .ok (cartesianFallback table_scan_executors (scantbl0.set 0 1) root, false)
    | c :: rest =>
        let joined0 : List String := List.replicate tables.length ""
        let st0 ← seedStep enable_nestedloop_join enable_sortmerge_join
          table_scan_executors scantbl0 joined0 c
        let stF := rest.foldl (extStep table_scan_executors) st0
        .ok (cartesianFallback table_scan_executors stF.scantbl stF.root,
             stF.usedBothNew)

/-- `Planner::make_one_rel` (planner.cpp 197-423). -/
def make_one_rel (sm : SmManager)
    (enable_nestedloop_join enable_sortmerge_join : Bool) (q : Query) :
    Except PlanErr Plan :=
  (make_one_rel_aux sm enable_nestedloop_join enable_sortmerge_join q).map Prod.fst

/-- The conditions left in `query->conds` after `make_one_rel`'s mutations:
phase one erases every popped condition; in the multi-table case the rest
is then moved out wholesale (`std::move(query->conds)`), leaving the vector
empty. -/
def queryAfterMakeOneRel (sm : SmManager) (q : Query) : Query :=
  match buildScans sm q.tables q.conds with
  | .ok (_, rest) =>
      if q.tables.length == 1 then { q with conds := rest } else { q with conds := [] }
  | .error _ => q

/-! ## Predicate-pushdown refiner (planner.cpp 1002-1081, 1305-1387) -/

/-- `Planner::extract_conditions_from_plan`: conditions stored on `Scan`
descendants, traversing joins only. -/
def extract_conditions_from_plan : Plan → List Condition
  | .scan _ _ cs _ _ => cs
  | .join _ l r _ => extract_conditions_from_plan l ++ extract_conditions_from_plan r
  | _ => []

/-- `Planner::collect_table_names_from_plan` (collected into a `std::set`;
only membership is consumed, so a plain list suffices). -/
def collect_table_names_from_plan : Plan → List String
  | .scan _ tn _ _ _ => [tn]
  | .join _ l r _ => collect_table_names_from_plan l ++ collect_table_names_from_plan r
  | .filter sub _ => collect_table_names_from_plan sub
  | .proj sub _ => collect_table_names_from_plan sub
  | _ => []

/-- `Planner::clear_conditions_from_plan`: clears `conds_` of every scan
reachable through joins only; `fed_conds_` is left untouched. -/
def clear_conditions_from_plan : Plan → Plan
  | .scan tag tn _ fcs idx => .scan tag tn [] fcs idx
  | .join a l r cs =>
      .join a (clear_conditions_from_plan l) (clear_conditions_from_plan r) cs
  | p => p

/-- `Planner::push_filters_down` (planner.cpp 1013-1081). -/
def push_filters_down : Plan → Plan
  | .join a l r cs =>
      let l1 := push_filters_down l
      let r1 := push_filters_down r
      let all_conditions := extract_conditions_from_plan (.join a l1 r1 cs)
      let left_tables := collect_table_names_from_plan l1
      let right_tables := collect_table_names_from_plan r1
      let left_conditions := all_conditions.filter
        (fun c => c.is_rhs_val && left_tables.contains c.lhs_col.tab_name)
      let right_conditions := all_conditions.filter
        (fun c => c.is_rhs_val && !left_tables.contains c.lhs_col.tab_name &&
                  right_tables.contains c.lhs_col.tab_name)
      let l2 := if left_conditions.isEmpty then l1 else .filter l1 left_conditions
      let r2 := if right_conditions.isEmpty then r1 else .filter r1 right_conditions
      clear_conditions_from_plan (.join a l2 r2 cs)
  | .scan tag tn cs fcs idx =>
      let table_conditions := cs.filter
        (fun c => c.is_rhs_val && c.lhs_col.tab_name == tn)
      if !table_conditions.isEmpty then
        .filter (.scan tag tn [] [] idx) table_conditions
      else
        .scan tag tn cs fcs idx
  | p => p

/-- `Planner::apply_predicate_pushdown` (the `query` argument is never read
by `push_filters_down`). -/
def apply_predicate_pushdown (plan : Plan) : Plan :=
  push_filters_down plan

/-! ## Projection-pushdown refiner (planner.cpp 1089-1221, 1344-1368) -/

/-- `Planner::collect_join_columns_from_plan`: qualified `tab.col` strings
of every join condition in the tree, accumulated into the needed set. -/
def collect_join_columns_from_plan : Plan → List String → List String
  | .join _ l r cs, acc =>
      let acc := cs.foldl
        (fun a c =>
          let a := setInsert (c.lhs_col.tab_name ++ "." ++ c.lhs_col.col_name) a
          if !c.is_rhs_val then
            setInsert (c.rhs_col.tab_name ++ "." ++ c.rhs_col.col_name) a
          else a)
        acc
      collect_join_columns_from_plan r (collect_join_columns_from_plan l acc)
  | .proj sub _, acc => collect_join_columns_from_plan sub acc
  | .filter sub _, acc => collect_join_columns_from_plan sub acc
  | _, acc => acc

/-- The `substr(0, dot)` / `substr(dot+1)` split at the first `.` used when
rebuilding a `TabCol` from a qualified name; `none` when no dot occurs. -/
def splitAtFirstDot (s : String) : Option (String × String) :=
  match s.splitOn "." with
  | [] => none
  | [_] => none
  | t :: rest => some (t, String.intercalate "." rest)

/-- `Planner::insert_project_nodes` (planner.cpp 1158-1221): above each
scan, project onto the needed columns of that table unless they are all of
the table's columns; the catalog-failure catch still adds the projection. -/
def insert_project_nodes (sm : SmManager) (needed_columns : List String)
    (select_cols : List TabCol) : Plan → Plan
  | .join a l r cs =>
      .join a (insert_project_nodes sm needed_columns select_cols l)
              (insert_project_nodes sm needed_columns select_cols r) cs
  | .filter sub cs => .filter (insert_project_nodes sm needed_columns select_cols sub) cs
  | .scan tag tn cs fcs idx =>
      let table_needed_cols := needed_columns.filterMap
        (fun nc =>
          match splitAtFirstDot nc with
          | some (t, c) =>
              if t == tn then some ({ tab_name := t, col_name := c } : TabCol) else none
          | none => none)
      if !table_needed_cols.isEmpty then
        match sm.get_table tn with
        | some tab =>
            if table_needed_cols.length == tab.cols.length then
              .scan tag tn cs fcs idx
            else
              .proj (.scan tag tn cs fcs idx) table_needed_cols
        | none => .proj (.scan tag tn cs fcs idx) table_needed_cols
      else
        .scan tag tn cs fcs idx
  | p => p

/-- `Planner::apply_projection_pushdown` (planner.cpp 1089-1126): computes
the needed-column set, optionally pushes per-table projections, and always
wraps the root in a `ProjectionPlan` over `query.cols`. -/
def apply_projection_pushdown (sm : SmManager) (plan : Plan) (q : Query) : Plan :=
  if plan == Plan.nullp then plan
  else
    let needed := q.cols.foldl
      (fun a col => setInsert (col.tab_name ++ "." ++ col.col_name) a) []
    let needed := q.conds.foldl
      (fun a c =>
        let a := setInsert (c.lhs_col.tab_name ++ "." ++ c.lhs_col.col_name) a
        if !c.is_rhs_val then
          setInsert (c.rhs_col.tab_name ++ "." ++ c.rhs_col.col_name) a
        else a)
      needed
    let needed := collect_join_columns_from_plan plan needed
    let plan :=
      if q.tables.length > 1 && !q.is_select_star && q.cols.length > 0 then
        insert_project_nodes sm needed q.cols plan
      else plan
    .proj plan q.cols

/-! ## Sort generator (`generate_sort_plan`, planner.cpp 442-511) -/

/-- `Planner::generate_sort_plan`: if the AST has `ORDER BY`, resolve the
sort column by first name match over the concatenated column metadata of
all referenced tables (a default-constructed, empty `TabCol` survives when
no column matches), and wrap the plan in a `SortPlan`. -/
def generate_sort_plan (sm : SmManager) (q : Query) (plan : Plan) :
    Except PlanErr Plan :=
  if !q.parse.has_sort then .ok plan
  else do
    let all_cols ← q.tables.foldlM
      (fun (acc : List ColMeta) t =>
        match sm.get_table t with
        | some tab => .ok (acc ++ tab.cols)
        | none => .error (.TableNotFound t))
      []
    let sel_col :=
      match all_cols.find? (fun col => col.name == q.parse.order.col_name) with
      | some col => ({ tab_name := col.tab_name, col_name := col.name } : TabCol)
      | none => { tab_name := "", col_name := "" }
    .ok (.sort plan sel_col (q.parse.order.orderby_dir == .OrderBy_DESC))

/-! ## Cardinality estimation (planner.cpp 858-879)

The source computes `estimated_pages * num_records_per_page * 0.7` in
IEEE-754 double precision and truncates the result to `size_t`.  The
integer product is exact (it is far below 2^53 for any real table), so the
double computation is: multiply by the double nearest 0.7, round the
product to the nearest double (ties to even), truncate. -/

/-- The IEEE-754 double nearest `0.7` is `6305039478318694 / 2^53`
(`0.7 * 2^53 = 6305039478318694.4`, rounded down). -/
def double07Num : Nat := 6305039478318694

/-- Round-to-nearest, ties-to-even integer division. -/
def rneDiv (n d : Nat) : Nat :=
  let q := n / d
  let r := n % d
  if 2 * r < d then q
  else if 2 * r > d then q + 1
  else if q % 2 == 0 then q else q + 1

/-- Structural base-2 logarithm with a fuel budget: `log2Fuel f n` equals
`⌊log₂ n⌋` whenever `n < 2^f`.  (A structural version of `Nat.log2`,
which is defined by well-founded recursion; 128 bits of fuel cover every
product the estimator can form from 64-bit page and record counts.) -/
def log2Fuel : Nat → Nat → Nat
  | 0, _ => 0
  | fuel + 1, n => if n ≥ 2 then log2Fuel fuel (n / 2) + 1 else 0

/-- `(size_t)(n * 0.7)` evaluated in double precision: the exact product
`N = n * fl(0.7) * 2^53` has `2^e ≤ N < 2^(e+1)`; rounding to 53
significant bits rounds `N` to a multiple of `2^(e-52)` (ties to even), and
the truncation is the floor of the rounded value. -/
def truncDoubleMul07 (n : Nat) : Nat :=
  if n == 0 then 0
  else
    let N := n * double07Num
    let d := 2 ^ (log2Fuel 128 N - 52)
    rneDiv N d * d / 2 ^ 53

/-- `Planner::estimate_table_cardinality`: 1000 when the file handle is
missing or any exception occurs; otherwise the page-utilization estimate,
floored at 1. -/
def estimate_table_cardinality (sm : SmManager) (table_name : String) : Nat :=
  match sm.get_fh table_name with
  | none => 1000
  | some (.error _) => 1000
  | some (.ok hdr) =>
      let estimated_pages := if hdr.num_pages > 1 then hdr.num_pages - 1 else 0
      let estimated_records :=
        truncDoubleMul07 (estimated_pages * hdr.num_records_per_page)
      if estimated_records > 0 then estimated_records else 1

/-! ## Greedy join ordering (planner.cpp 822-850, 888-994) -/

/-- Lookup in `cardinality_map` (an `unordered_map` built left to right,
so a duplicate table name overwrites: the last entry wins; `operator[]`
default-constructs `0` for a missing key). -/
def cardLookup (stats : List (String × Nat)) (t : String) : Nat :=
  (((stats.reverse.find? (fun p => p.1 == t))).map Prod.snd).getD 0

/-- The undirected join graph: an edge between `a` and `b` iff some
non-literal condition has its two column sides on those two tables. -/
def joinEdge (conds : List Condition) (a b : String) : Bool :=
  conds.any (fun c =>
    !c.is_rhs_val &&
    ((c.lhs_col.tab_name == a && c.rhs_col.tab_name == b) ||
     (c.lhs_col.tab_name == b && c.rhs_col.tab_name == a)))

/-- Whether `t` has a join edge to at least one already-chosen table. -/
def hasJoinToUsed (conds : List Condition) (used : List String) (t : String) : Bool :=
  used.any (fun u => joinEdge conds t u)

/-- Whether some other unchosen table has a join edge to the chosen set
(the source's skip-disconnected-candidates test). -/
def othersHaveJoins (stats : List (String × Nat)) (conds : List Condition)
    (used : List String) (t : String) : Bool :=
  stats.any (fun o =>
    !used.contains o.1 && o.1 != t && hasJoinToUsed conds used o.1)

/-- A table is considered by the selection loop iff it is unused and is
connected to the chosen set, or nothing else is. -/
def eligibleB (stats : List (String × Nat)) (conds : List Condition)
    (used : List String) (t : String) : Bool :=
  !used.contains t &&
  (hasJoinToUsed conds used t || !othersHaveJoins stats conds used t)

/-- First-wins strict minimum (the source starts from `min_cost = SIZE_MAX`
and updates on strict improvement; `SIZE_MAX` itself is unreachable for a
cardinality, so the first element always enters). -/
def firstMinBy (cost : String → Nat) (l : List String) : Option String :=
  l.foldl
    (fun acc t =>
      match acc with
      | none => some t
      | some b => if cost t < cost b then some t else acc)
    none

/-- The greedy selection of the cheapest eligible table (planner.cpp
936-976, one iteration's scan over `table_stats`). -/
def selectBest (stats : List (String × Nat)) (conds : List Condition)
    (used : List String) : Option String :=
  firstMinBy (cardLookup stats) ((stats.map Prod.fst).filter (eligibleB stats conds used))

/-- The comparator handed to `std::sort` (compare by estimated
cardinality).  `std::sort` gives an unspecified order among ties; the model
commits to the stable insertion-sort order. -/
def cardLE (a b : String × Nat) : Prop := a.2 ≤ b.2

instance : DecidableRel cardLE :=
  fun a b => inferInstanceAs (Decidable (a.2 ≤ b.2))

instance : IsTotal (String × Nat) cardLE := ⟨fun a b => Nat.le_total a.2 b.2⟩

instance : IsTrans (String × Nat) cardLE := ⟨fun _ _ _ => Nat.le_trans⟩

/-- The `std::sort(sorted_stats, by cardinality)` call, modelled as a
stable insertion sort. -/
def sortByCard (stats : List (String × Nat)) : List (String × Nat) :=
  List.insertionSort cardLE stats

/-- The while-loop of `greedy_join_order_optimization` (planner.cpp
936-991), with fuel for termination; the chosen tables double as the
used-set (they are appended exactly when not yet present). -/
def greedyLoop (stats sorted : List (String × Nat)) (conds : List Condition) :
    Nat → List String → List String
  | 0, result => result
  | fuel + 1, result =>
      if result.length < stats.length then
        match selectBest stats conds result with
        | some t => greedyLoop stats sorted conds fuel (result ++ [t])
        | none =>
            match (sorted.map Prod.fst).find? (fun s => !result.contains s) with
            | some s => greedyLoop stats sorted conds fuel (result ++ [s])
            | none => greedyLoop stats sorted conds fuel result
      else result

/-- `Planner::greedy_join_order_optimization` (planner.cpp 888-994). -/
def greedy_join_order_optimization (table_stats : List (String × Nat))
    (conditions : List Condition) : List String :=
  if table_stats.length ≤ 2 then
    (sortByCard table_stats).map Prod.fst
  else
    let sorted_stats := sortByCard table_stats
    let seed := (sorted_stats.take 2).map Prod.fst
    greedyLoop table_stats sorted_stats conditions table_stats.length seed

/-- `Planner::join_order_optimization` (planner.cpp 822-850): reorders
`query.tables` for three or more tables (the per-table try/catch around
`estimate_table_cardinality` is not exercised: the estimator handles its
errors internally and returns 1000). -/
def join_order_optimization (sm : SmManager) (q : Query) : Query :=
  if q.tables.length ≤ 2 then q
  else
    let table_stats := q.tables.map (fun t => (t, estimate_table_cardinality sm t))
    { q with tables := greedy_join_order_optimization table_stats q.conds }

/-! ## The SELECT pipeline (planner.cpp 155-186, 520-529) -/

/-- `Planner::predicate_pushdown` (planner.cpp 758-770): a no-op hook. -/
def predicate_pushdown (q : Query) : Query := q

/-- `Planner::projection_pushdown` (planner.cpp 778-814): collects a
needed-column set but returns the query unchanged. -/
def projection_pushdown (q : Query) : Query := q

/-- `Planner::logical_optimization` for a SELECT statement. -/
def logical_optimization (sm : SmManager) (q : Query) : Query :=
  join_order_optimization sm (projection_pushdown (predicate_pushdown q))

/-- `Planner::physical_optimization` (planner.cpp 173-186): build the
relation tree, push filters down, push projections down, then handle
ORDER BY.  The refiners read the query as mutated by `make_one_rel`. -/
def physical_optimization (sm : SmManager)
    (enable_nestedloop_join enable_sortmerge_join : Bool) (q : Query) :
    Except PlanErr Plan := do
  let plan ← make_one_rel sm enable_nestedloop_join enable_sortmerge_join q
  let q1 := queryAfterMakeOneRel sm q
  let plan := apply_predicate_pushdown plan
  let plan := apply_projection_pushdown sm plan q1
  generate_sort_plan sm q1 plan

/-- `Planner::generate_select_plan`: logical then physical optimization. -/
def generate_select_plan (sm : SmManager)
    (enable_nestedloop_join enable_sortmerge_join : Bool) (q : Query) :
    Except PlanErr Plan :=
  physical_optimization sm enable_nestedloop_join enable_sortmerge_join
    (logical_optimization sm q)

/-! ## Sequential-scan executor (`executor_seq_scan.h`) -/

/-- Executor errors (`InternalError`). -/
inductive ExecErr where
  | InternalError (msg : String)
deriving DecidableEq, Repr

/-- The executor's state.  Records are identified with the file's contents
listed in `RmScan` (rid) order; `eval_conds(cols_, fed_conds_, rec)`
depends only on the record once schema and conditions are fixed, so it is
modelled by a record predicate.  `scan_pos = none` models the null
`unique_ptr<RecScan>` before initialization. -/
structure SeqScanExecutor where
  records : List Nat
  eval : Nat → Bool
  scan_pos : Option Nat
  rid : Nat

/-- The advance loop shared by `beginTuple`/`nextTuple`: starting at
position `i`, set `rid_` to each visited position and stop at the first
record satisfying the conditions; returns the final scan position and
`rid_`. -/
def scanLoopFrom (eval : Nat → Bool) : List Nat → Nat → Nat → Nat × Nat
  | [], i, rid => (i, rid)
  | r :: rest, i, _rid =>
      if eval r then (i, i) else scanLoopFrom eval rest (i + 1) i

/-- `SeqScanExecutor::beginTuple`: start a fresh scan at position 0 and
advance to the first matching record. -/
def SeqScanExecutor.beginTuple (e : SeqScanExecutor) : SeqScanExecutor :=
  let pr := scanLoopFrom e.eval e.records 0 e.rid
  { e with scan_pos := some pr.1, rid := pr.2 }

/-- `SeqScanExecutor::is_end`. -/
def SeqScanExecutor.is_end (e : SeqScanExecutor) : Bool :=
  match e.scan_pos with
  | none => true
  | some p => p ≥ e.records.length

/-- `SeqScanExecutor::nextTuple`: throws `InternalError` when the scan was
never initialized; otherwise advances once and seeks the next match. -/
def SeqScanExecutor.nextTuple (e : SeqScanExecutor) :
    Except ExecErr SeqScanExecutor :=
  match e.scan_pos with
  | none => .error (.InternalError ("Scan not initialized at " ++ "SeqScanExecutor"))
  | some p =>
      let p1 := if p < e.records.length then p + 1 else p
      let pr := scanLoopFrom e.eval (e.records.drop p1) p1 e.rid
      .ok { e with scan_pos := some pr.1, rid := pr.2 }

/-- `SeqScanExecutor::Next`: lazily initializes through `beginTuple`, then
returns the record at `rid_`, or `nullptr` (`none`) when exhausted. -/
def SeqScanExecutor.Next (e : SeqScanExecutor) : Option Nat × SeqScanExecutor :=
  let e1 := if e.scan_pos == none then e.beginTuple else e
  if e1.is_end then (none, e1) else (e1.records.get? e1.rid, e1)

/-! ## Observation helpers over plan trees -/

/-- Whether a plan node is a `JoinPlan`. -/
def Plan.isJoin : Plan → Bool
  | .join _ _ _ _ => true
  | _ => false

/-- Whether a plan node is a `ProjectionPlan`. -/
def Plan.isProj : Plan → Bool
  | .proj _ _ => true
  | _ => false

/-- Whether a plan node is a `ScanPlan`. -/
def Plan.isScan : Plan → Bool
  | .scan _ _ _ _ _ => true
  | _ => false

/-- No join anywhere in the tree has a `JoinPlan` as its *left* child
(the mirror image of the left-deep property: the spine grows on the
right). -/
def noJoinLeftChild : Plan → Bool
  | .join _ l r _ => !l.isJoin && noJoinLeftChild l && noJoinLeftChild r
  | .filter sub _ => noJoinLeftChild sub
  | .proj sub _ => noJoinLeftChild sub
  | .sort sub _ _ => noJoinLeftChild sub
  | _ => true

/-- How many times a given condition value occurs across all condition
lists of the plan (scan `conds`, join `conds`, filter `conds`);
the executor-facing copy `fed_conds` is the same location as its scan. -/
def condOccurrences (c : Condition) : Plan → Nat
  | .scan _ _ cs _ _ => cs.count c
  | .join _ l r cs => cs.count c + condOccurrences c l + condOccurrences c r
  | .filter sub cs => cs.count c + condOccurrences c sub
  | .proj sub _ => condOccurrences c sub
  | .sort sub _ _ => condOccurrences c sub
  | .nullp => 0

/-- Every scan node's data apart from its two condition lists, in tree
order. -/
def scanSkeletons : Plan → List (ScanTag × String × List String)
  | .scan tag tn _ _ idx => [(tag, tn, idx)]
  | .join _ l r _ => scanSkeletons l ++ scanSkeletons r
  | .filter sub _ => scanSkeletons sub
  | .proj sub _ => scanSkeletons sub
  | .sort sub _ _ => scanSkeletons sub
  | .nullp => []

/-- The tree consists only of scans, joins and null children — the shape
`make_one_rel` produces. -/
def scanJoinOnly : Plan → Bool
  | .scan _ _ _ _ _ => true
  | .nullp => true
  | .join _ l r _ => scanJoinOnly l && scanJoinOnly r
  | _ => false

/-- Well-formedness of a condition stored on the scan of table `tn`, as
established by `pop_conds` together with §3's `Condition` invariant
(a literal condition is single-sided on the table of its `lhs`): a literal
condition on a scan names the scan's table on the left, and a
column-column condition stored on a scan is self-referential. -/
def condWFForScan (tn : String) (c : Condition) : Bool :=
  if c.is_rhs_val then c.lhs_col.tab_name == tn
  else c.lhs_col.tab_name == c.rhs_col.tab_name

/-- All scans of the tree carry only well-formed conditions. -/
def scansWF : Plan → Bool
  | .scan _ tn cs _ _ => cs.all (condWFForScan tn)
  | .join _ l r _ => scansWF l && scansWF r
  | .filter sub _ => scansWF sub
  | .proj sub _ => scansWF sub
  | .sort sub _ _ => scansWF sub
  | .nullp => true

/-- Every `FilterPlan` directly wrapping a `ScanPlan` wraps one whose
`conds` *and* `fed_conds` are both empty. -/
def hoistedScansCleared : Plan → Bool
  | .filter (.scan _ _ cs fcs _) _ => cs.isEmpty && fcs.isEmpty
  | .filter sub _ => hoistedScansCleared sub
  | .join _ l r _ => hoistedScansCleared l && hoistedScansCleared r
  | .proj sub _ => hoistedScansCleared sub
  | .sort sub _ _ => hoistedScansCleared sub
  | _ => true

/-- Auxiliary invariant for the pushdown proof: every scan reachable
through joins only (the scans `extract_conditions_from_plan` sees) carries
no literal condition. -/
def exposedScansNoValConds : Plan → Bool
  | .scan _ _ cs _ _ => cs.all (fun c => !c.is_rhs_val)
  | .join _ l r _ => exposedScansNoValConds l && exposedScansNoValConds r
  | _ => true

/-- The spec's cardinality formula with an exact real 0.7:
`max(1, (num_pages − 1) × records_per_page × 0.7)` truncated. -/
def specCardinalityFormula (num_pages records_per_page : Nat) : Nat :=
  max 1 ((num_pages - 1) * records_per_page * 7 / 10)

/-! ## Concrete instances used by witnesses and counterexamples -/

/-- Catalog with three indexless tables `A`, `B`, `C`. -/
def smABC : SmManager :=
  ⟨[("A", ⟨[⟨"A", "x"⟩, ⟨"A", "y"⟩], []⟩),
    ("B", ⟨[⟨"B", "x"⟩, ⟨"B", "y"⟩], []⟩),
    ("C", ⟨[⟨"C", "y"⟩], []⟩)], []⟩

/-- Catalog with a single indexless table `t(a, b)`. -/
def smT : SmManager := ⟨[("t", ⟨[⟨"t", "a"⟩, ⟨"t", "b"⟩], []⟩)], []⟩

/-- Catalog whose table `t` has an open file handle with 258 pages and 10
records per page. -/
def smFP : SmManager := ⟨[], [("t", .ok ⟨258, 10⟩)]⟩

/-- Join condition `A.x = B.x`. -/
def cAB : Condition := ⟨⟨"A", "x"⟩, .OP_EQ, ⟨"B", "x"⟩, false, ⟨0⟩⟩

/-- Join condition `B.y < C.y`. -/
def cBC : Condition := ⟨⟨"B", "y"⟩, .OP_LT, ⟨"C", "y"⟩, false, ⟨0⟩⟩

/-- Literal condition `t.a = v`. -/
def cv : Condition := ⟨⟨"t", "a"⟩, .OP_EQ, ⟨"", ""⟩, true, ⟨0⟩⟩

/-- Self-referential column condition `t.a < t.b`. -/
def cself : Condition := ⟨⟨"t", "a"⟩, .OP_LT, ⟨"t", "b"⟩, false, ⟨0⟩⟩

/-- An AST with no ORDER BY. -/
def noSortAst : SelectAst := ⟨false, ⟨"", .OrderBy_DEFAULT⟩⟩

/-- Three-table chain query `A ⋈ B ⋈ C` on `cAB`, `cBC`. -/
def qABC : Query := ⟨noSortAst, ["A", "B", "C"], [⟨"A", "x"⟩], [cAB, cBC], false⟩

/-- Two-table query with no conditions (pure Cartesian product). -/
def qAB0 : Query := ⟨noSortAst, ["A", "B"], [⟨"A", "x"⟩], [], false⟩

/-- Two-table query with the single join condition `cAB`. -/
def qAB1 : Query := ⟨noSortAst, ["A", "B"], [⟨"A", "x"⟩], [cAB], false⟩

/-- Single-table query whose WHERE clause is `t.a = v AND t.a < t.b`. -/
def qT : Query := ⟨noSortAst, ["t"], [⟨"t", "a"⟩], [cv, cself], false⟩

/-- `SELECT t.a FROM t ORDER BY a DESC`. -/
def qTsort : Query := ⟨⟨true, ⟨"a", .OrderBy_DESC⟩⟩, ["t"], [⟨"t", "a"⟩], [], false⟩

/-- Table statistics with a cardinality tie between `a` and `b`. -/
def statsX : List (String × Nat) := [("a", 10), ("b", 10), ("c", 5)]

/-- The same statistics listed in a different order. -/
def statsY : List (String × Nat) := [("b", 10), ("a", 10), ("c", 5)]

end GssDB

namespace GssDB

/-! # Theorems -/

/-- Helper: `push_conds` either attaches the condition (code 3) or leaves
the plan unchanged. -/
theorem push_conds_result (c : Condition) (p : Plan) :
    (push_conds c p).1 = 3 ∨ (push_conds c p).2 = p := by
  induction p with
  | nullp => right; rfl
  | scan tag tn cs fcs idx =>
      right
      simp only [push_conds]
      split_ifs <;> rfl
  | join a l r cs ihl ihr =>
      simp only [push_conds]
      by_cases h1 : (push_conds c l).1 == 3
      · left; simp [h1]
      · by_cases h2 : (push_conds c r).1 == 3
        · left; simp [h1, h2]
        · by_cases h3 : (push_conds c l).1 == 0 || (push_conds c r).1 == 0
          · right
            have hl : (push_conds c l).2 = l := by
              rcases ihl with h | h
              · exact absurd (by simp [h]) h1
              · exact h
            have hr : (push_conds c r).2 = r := by
              rcases ihr with h | h
              · exact absurd (by simp [h]) h2
              · exact h
            simp [h1, h2, h3, hl, hr]
          · left
            by_cases h4 : (push_conds c l).1 == 2 <;> simp [h1, h2, h3, h4]
  | filter sub cs ih => right; rfl
  | proj sub cols ih => right; rfl
  | sort sub col d ih => right; rfl

theorem push_conds_no_attach (c : Condition) (p : Plan)
    (h : (push_conds c p).1 ≠ 3) : (push_conds c p).2 = p := by
  rcases push_conds_result c p with h3 | h2
  · exact absurd h3 h
  · exact h2

/-- C7: the swap table is an involution, and both side-reversal sites
(`push_conds` with `left_res == 2`, and the one-new-table extension case
of `make_one_rel` with the new table on the right) attach exactly the
side-swapped condition with `swap_op` applied. -/
theorem C7_swap_involution_and_sites :
    (∀ op : CompOp, swap_op (swap_op op) = op) ∧
    (∀ (c : Condition) (a : JoinAlgo) (l r : Plan) (cs : List Condition),
        (push_conds c l).1 = 2 → (push_conds c r).1 = 1 →
        push_conds c (.join a l r cs) = (3, .join a l r (cs ++ [reverseCond c]))) ∧
    (∀ (plans : List Plan) (st : MkState) (c : Condition),
        st.joined_tables.contains c.lhs_col.tab_name = true →
        st.joined_tables.contains c.rhs_col.tab_name = false →
        (pop_scan st.scantbl c.rhs_col.tab_name st.joined_tables plans).1 ≠ Plan.nullp →
        extStep plans st c =
          { root := .join .T_NestLoop
              (pop_scan st.scantbl c.rhs_col.tab_name st.joined_tables plans).1 st.root
              [reverseCond c],
            scantbl := (pop_scan st.scantbl c.rhs_col.tab_name st.joined_tables plans).2.1,
            joined_tables := (pop_scan st.scantbl c.rhs_col.tab_name st.joined_tables plans).2.2,
            usedBothNew := st.usedBothNew }) := by
  refine ⟨fun op => by cases op <;> rfl, ?_, ?_⟩
  · intro c a l r cs h2 h1
    have hl : (push_conds c l).2 = l := push_conds_no_attach c l (by omega)
    have hr : (push_conds c r).2 = r := push_conds_no_attach c r (by omega)
    simp [push_conds, h2, h1, hl, hr]
  · intro plans st c hlhs hrhs hnn
    simp only [extStep, hlhs, if_true, hrhs, if_false]
    simp [bne_iff_ne, hnn]

/-- C7 witness: the `push_conds` reversal site at a concrete join of two
scans, with `B.x` on the left subtree and `A.x` on the right. -/
theorem C7_swap_involution_and_sites_witness :
    push_conds cAB
        (.join .T_NestLoop (.scan .T_SeqScan "B" [] [] [])
          (.scan .T_SeqScan "A" [] [] []) []) =
      (3, .join .T_NestLoop (.scan .T_SeqScan "B" [] [] [])
            (.scan .T_SeqScan "A" [] [] []) [reverseCond cAB]) :=
  C7_swap_involution_and_sites.2.1 cAB .T_NestLoop _ _ [] rfl rfl

end GssDB

namespace GssDB

/-- Helper: reduction of `Except` binds. -/
theorem exceptBind_ok {ε α β : Type} (a : α) (f : α → Except ε β) :
    (Except.ok a >>= f : Except ε β) = f a := rfl

/-- Helper: an errored `Except` bind short-circuits. -/
theorem exceptBind_error {ε α β : Type} (e : ε) (f : α → Except ε β) :
    (Except.error e >>= f : Except ε β) = .error e := rfl

/-- C5 counterexample: on table `t` with no index and the literal condition
`t.a = v`, `get_index_cols` reports `false` yet returns the non-empty
candidate list `["a"]`, contradicting "whenever get_index_cols reports that
no usable index exists the returned index column list is empty". -/
theorem C5_counterexample :
    get_index_cols smT "t" [cv] = .ok (false, ["a"]) ∧
    (["a"] : List String) ≠ [] := ⟨rfl, by decide⟩

/-- C5 amended: when `get_index_cols` reports `false` it returns the full
(sorted, deduplicated) candidate-column list rather than an empty list;
every caller clears the list on the `false` path, so sequential scans built
by the planner always carry empty `index_col_names`. -/
theorem C5_amended_false_returns_candidates :
    (∀ (sm : SmManager) (tab : String) (conds : List Condition) (l : List String),
        get_index_cols sm tab conds = .ok (false, l) → l = candidateCols tab conds) ∧
    (∀ (sm : SmManager) (ts : List String) (conds : List Condition)
        (out : List Plan × List Condition),
        buildScans sm ts conds = .ok out →
        ∀ tn cs fcs idx, Plan.scan .T_SeqScan tn cs fcs idx ∈ out.1 → idx = []) := by
  constructor
  · intro sm tab conds l h
    simp only [get_index_cols] at h
    cases hsm : sm.get_table tab with
    | none => rw [hsm] at h; exact absurd h (by simp)
    | some tab' =>
        rw [hsm] at h
        by_cases he : (candidateCols tab conds).isEmpty
        · simp only [he, if_true] at h
          have h1 := Except.ok.inj h
          have := congrArg Prod.snd h1
          simpa using this.symm
        · simp only [he, if_false] at h
          cases hf : (candidateCols tab conds).find? (fun col => tab'.is_index [col]) with
          | some col => rw [hf] at h; cases h
          | none =>
              rw [hf] at h
              by_cases hi : tab'.is_index (candidateCols tab conds)
              · simp [hi] at h
              · simp only [hi, if_false] at h
                have h1 := Except.ok.inj h
                have := congrArg Prod.snd h1
                simpa using this.symm
  · intro sm ts
    induction ts with
    | nil =>
        intro conds out h tn cs fcs idx hmem
        simp only [buildScans] at h
        cases h
        simp at hmem
    | cons t ts ih =>
        intro conds out h tn cs fcs idx hmem
        simp only [buildScans] at h
        cases hic : get_index_cols sm t (pop_conds conds t).1 with
        | error e => rw [hic, exceptBind_error] at h; cases h
        | ok ic =>
            rw [hic, exceptBind_ok] at h
            cases hrec : buildScans sm ts (pop_conds conds t).2 with
            | error e => rw [hrec, exceptBind_error] at h; cases h
            | ok more =>
                rw [hrec, exceptBind_ok] at h
                cases h
                simp only [List.mem_cons] at hmem
                rcases hmem with hhead | htail
                · by_cases hb : ic.1
                  · simp [hb] at hhead
                  · simp only [hb, if_false] at hhead
                    simp at hhead
                    exact hhead.2.2.2
                · exact ih _ _ hrec tn cs fcs idx htail

/-- C5 witness: the amended claim applied at the concrete catalog `smT`:
the list returned with `false` equals the candidate list of `t.a = v`. -/
theorem C5_amended_false_returns_candidates_witness :
    (["a"] : List String) = candidateCols "t" [cv] :=
  C5_amended_false_returns_candidates.1 smT "t" [cv] ["a"] rfl

end GssDB

namespace GssDB

/-- Helper: when no record matches, the advance loop runs to the end of the
file and the final position is past the last record. -/
theorem scanLoopFrom_none (eval : Nat → Bool) :
    ∀ (l : List Nat) (i rid : Nat), l.find? eval = none →
      (scanLoopFrom eval l i rid).1 = i + l.length := by
  intro l
  induction l with
  | nil => intro i rid _; simp [scanLoopFrom]
  | cons x xs ih =>
      intro i rid h
      rw [List.find?_cons] at h
      cases hx : eval x with
      | true => rw [hx] at h; cases h
      | false =>
          have h' : List.find? eval xs = none := by rw [hx] at h; exact h
          have h2 := ih (i + 1) i h'
          simp [scanLoopFrom, hx, h2]
          omega

/-- Helper: when some record matches, the loop stops at the first match,
leaving both the position and `rid_` at its index. -/
theorem scanLoopFrom_some (eval : Nat → Bool) :
    ∀ (l : List Nat) (r : Nat), l.find? eval = some r →
      ∀ (i rid : Nat), ∃ j, j < l.length ∧ l.get? j = some r ∧
        scanLoopFrom eval l i rid = (i + j, i + j) := by
  intro l
  induction l with
  | nil => intro r h; cases h
  | cons x xs ih =>
      intro r h i rid
      rw [List.find?_cons] at h
      cases hx : eval x with
      | true =>
          rw [hx] at h
          have hr : x = r := by cases h; rfl
          refine ⟨0, by simp, by simp [hr], ?_⟩
          simp [scanLoopFrom, hx]
      | false =>
          have h' : List.find? eval xs = some r := by rw [hx] at h; exact h
          obtain ⟨j, hj, hget, heq⟩ := ih r h' (i + 1) i
          refine ⟨j + 1, by simpa using Nat.succ_lt_succ hj, by simpa using hget, ?_⟩
          simp only [scanLoopFrom, hx, Bool.false_eq_true, if_false]
          rw [heq]
          have h2 : i + 1 + j = i + (j + 1) := by omega
          rw [h2]

/-- C10: calling `Next()` on a `SeqScanExecutor` whose scan has not been
started first runs `beginTuple` itself and returns the first record
satisfying the fed conditions (the null pointer when none does or the file
is empty) — it never throws for an unstarted scan; by contrast, calling
`nextTuple()` before initialization throws `InternalError`. -/
theorem C10_next_on_unstarted_scan
    (records : List Nat) (eval : Nat → Bool) (rid0 : Nat) :
    (SeqScanExecutor.Next ⟨records, eval, none, rid0⟩).1 = records.find? eval ∧
    SeqScanExecutor.nextTuple ⟨records, eval, none, rid0⟩ =
      .error (.InternalError ("Scan not initialized at " ++ "SeqScanExecutor")) := by
  constructor
  · cases hf : records.find? eval with
    | none =>
        have h1 := scanLoopFrom_none eval records 0 rid0 hf
        simp [SeqScanExecutor.Next, SeqScanExecutor.beginTuple,
              SeqScanExecutor.is_end, h1]
    | some r =>
        obtain ⟨j, hj, hget, heq⟩ := scanLoopFrom_some eval records r hf 0 rid0
        have h3 : records[j] = r := by
          have h4 : records[j]? = some r := by
            rw [← List.get?_eq_getElem?]; exact hget
          rw [List.getElem?_eq_getElem hj] at h4
          exact Option.some.inj h4
        simp [SeqScanExecutor.Next, SeqScanExecutor.beginTuple,
              SeqScanExecutor.is_end, heq, Nat.not_le_of_lt, hj, h3]
  · rfl

end GssDB

namespace GssDB

/-- C4: the code drops a predicate.  For the single-table query
`SELECT t.a FROM t WHERE t.a = v AND t.a < t.b`, the final plan holds the
literal predicate exactly once but the self-referential column predicate
`t.a < t.b` zero times: `push_filters_down` hoists only the literal
conditions and clears the scan's `conds` and `fed_conds`, losing
`t.a < t.b` entirely, contrary to "every predicate appears in exactly one
location; no predicate is lost". -/
theorem C4_self_condition_dropped :
    generate_select_plan smT true true qT =
      .ok (.proj (.filter (.scan .T_SeqScan "t" [] [] []) [cv]) [⟨"t", "a"⟩]) ∧
    condOccurrences cself
      (.proj (.filter (.scan .T_SeqScan "t" [] [] []) [cv]) [⟨"t", "a"⟩]) = 0 ∧
    cself ∈ qT.conds ∧
    condOccurrences cv
      (.proj (.filter (.scan .T_SeqScan "t" [] [] []) [cv]) [⟨"t", "a"⟩]) = 1 :=
  ⟨rfl, by decide, by decide, by decide⟩

/-- C3 counterexample: with both join knobs off, the two-table Cartesian
query (no residual predicate) is planned successfully instead of failing
with `NoJoinExecutorSelected`. -/
theorem C3_counterexample :
    make_one_rel smABC false false qAB0 =
      .ok (.join .T_NestLoop (.scan .T_SeqScan "B" [] [] [])
            (.scan .T_SeqScan "A" [] [] []) []) := rfl

/-- C3 amended: with both join knobs off and more than one table, planning
fails with `NoJoinExecutorSelected` if and only if at least one residual
(join) condition survives the per-table `pop_conds`; the purely Cartesian
case builds a NestLoop plan despite both knobs being off. -/
theorem C3_amended_error_iff_residual (sm : SmManager) (q : Query)
    (out : List Plan × List Condition)
    (hb : buildScans sm q.tables q.conds = .ok out)
    (hlen : 2 ≤ q.tables.length) :
    (out.2 ≠ [] → make_one_rel sm false false q = .error .NoJoinExecutorSelected) ∧
    (out.2 = [] → ∃ p, make_one_rel sm false false q = .ok p) := by
  have hne : (q.tables.length == 1) = false := by
    simp only [beq_eq_false_iff_ne, ne_eq]
    omega
  constructor
  · intro hrest
    cases hout : out.2 with
    | nil => exact absurd hout hrest
    | cons c rest =>
        simp only [make_one_rel, make_one_rel_aux, hb, exceptBind_ok, hne,
          Bool.false_eq_true, if_false]
        rw [hout]
        rfl
  · intro hrest
    refine ⟨cartesianFallback out.1 ((List.replicate q.tables.length (-1 : Int)).set 0 1)
      (out.1.headD .nullp), ?_⟩
    simp only [make_one_rel, make_one_rel_aux, hb, exceptBind_ok, hne,
      Bool.false_eq_true, if_false]
    rw [hrest]
    rfl

/-- C3 witness: the amended claim at concrete inputs — `A ⋈ B` on
`A.x = B.x` with both knobs off fails, while the Cartesian `A × B` with
both knobs off is planned. -/
theorem C3_amended_error_iff_residual_witness :
    make_one_rel smABC false false qAB1 = .error .NoJoinExecutorSelected ∧
    (∃ p, make_one_rel smABC false false qAB0 = .ok p) :=
  ⟨(C3_amended_error_iff_residual smABC qAB1
      ([.scan .T_SeqScan "A" [] [] [], .scan .T_SeqScan "B" [] [] []], [cAB])
      rfl (by decide)).1 (by decide),
   (C3_amended_error_iff_residual smABC qAB0
      ([.scan .T_SeqScan "A" [] [] [], .scan .T_SeqScan "B" [] [] []], [])
      rfl (by decide)).2 rfl⟩

end GssDB

namespace GssDB

/-- Helper: scans and null children are join-free on their own. -/
theorem scanOrNull_noJoin (p : Plan) (h : p.isScan = true ∨ p = .nullp) :
    p.isJoin = false ∧ noJoinLeftChild p = true := by
  cases p <;> simp_all [Plan.isScan, Plan.isJoin, noJoinLeftChild]

/-- Helper: every plan built by `buildScans` is a `ScanPlan`. -/
theorem buildScans_all_scans (sm : SmManager) :
    ∀ (ts : List String) (conds : List Condition) (out : List Plan × List Condition),
      buildScans sm ts conds = .ok out → ∀ p ∈ out.1, p.isScan = true := by
  intro ts
  induction ts with
  | nil =>
      intro conds out h p hp
      simp only [buildScans] at h
      cases h
      simp at hp
  | cons t ts ih =>
      intro conds out h p hp
      simp only [buildScans] at h
      cases hic : get_index_cols sm t (pop_conds conds t).1 with
      | error e => rw [hic, exceptBind_error] at h; cases h
      | ok ic =>
          rw [hic, exceptBind_ok] at h
          cases hrec : buildScans sm ts (pop_conds conds t).2 with
          | error e => rw [hrec, exceptBind_error] at h; cases h
          | ok more =>
              rw [hrec, exceptBind_ok] at h
              cases h
              simp only [List.mem_cons] at hp
              rcases hp with hh | htail
              · subst hh
                by_cases hb : ic.1 <;> simp [hb, Plan.isScan]
              · exact ih _ _ hrec p htail

/-- Helper: `pop_scan` returns either a member of the plan list or null. -/
theorem pop_scan_mem_or_null (scantbl : List Int) (table : String)
    (joined : List String) (plans : List Plan) :
    (pop_scan scantbl table joined plans).1 ∈ plans ∨
    (pop_scan scantbl table joined plans).1 = .nullp := by
  simp only [pop_scan]
  cases hf : plans.findIdx? (fun p =>
      match p with
      | .scan _ tn _ _ _ => tn == table
      | _ => false) with
  | none => right; rfl
  | some i =>
      cases hg : plans.get? i with
      | none =>
          right
          show ((plans.get? i).getD Plan.nullp, scantbl.set i 1, joined ++ [table]).1 = Plan.nullp
          rw [hg]
          rfl
      | some x =>
          left
          show ((plans.get? i).getD Plan.nullp, scantbl.set i 1, joined ++ [table]).1 ∈ plans
          simp only [hg, Option.getD_some]
          exact List.get?_mem hg

/-- Helper: `push_conds` preserves the node kind and the
no-join-left-child property. -/
theorem push_conds_preserves_shape (c : Condition) (p : Plan) :
    (push_conds c p).2.isJoin = p.isJoin ∧
    noJoinLeftChild (push_conds c p).2 = noJoinLeftChild p := by
  induction p with
  | nullp => exact ⟨rfl, rfl⟩
  | scan tag tn cs fcs idx =>
      simp only [push_conds]
      split_ifs <;> exact ⟨rfl, rfl⟩
  | join a l r cs ihl ihr =>
      simp only [push_conds]
      split_ifs <;>
        exact ⟨rfl, by simp only [noJoinLeftChild, ihl.1, ihl.2, ihr.1, ihr.2]⟩
  | filter sub cs ih => exact ⟨rfl, rfl⟩
  | proj sub cols ih => exact ⟨rfl, rfl⟩
  | sort sub col d ih => exact ⟨rfl, rfl⟩

end GssDB

namespace GssDB

/-- Helper: the both-new case is the only one that sets the flag; the other
extension cases either run `push_conds` on the root or graft a scan (or
null) as the left child above the old root. -/
theorem extStep_root_cases (plans : List Plan) (st : MkState) (c : Condition) :
    (extStep plans st c).root = (push_conds c st.root).2 ∨
    (∃ side cs, (side ∈ plans ∨ side = Plan.nullp) ∧
        (extStep plans st c).root = .join .T_NestLoop side st.root cs) ∨
    (extStep plans st c).usedBothNew = true := by
  simp only [extStep]
  split_ifs <;>
    first
      | (right; right; rfl)
      | (left; rfl)
      | exact Or.inr (Or.inl ⟨Plan.nullp, _, Or.inr rfl, rfl⟩)
      | exact Or.inr (Or.inl ⟨_, _, pop_scan_mem_or_null _ _ _ _, rfl⟩)

/-- Helper: the both-new flag is monotone. -/
theorem extStep_flag_monotone (plans : List Plan) (st : MkState) (c : Condition)
    (h : st.usedBothNew = true) : (extStep plans st c).usedBothNew = true := by
  simp only [extStep]
  split_ifs <;> simp [h]

/-- Helper: if the flag is clear after a step it was clear before. -/
theorem extStep_flag_back (plans : List Plan) (st : MkState) (c : Condition)
    (h : (extStep plans st c).usedBothNew = false) : st.usedBothNew = false := by
  by_contra hc
  rw [extStep_flag_monotone plans st c (by simpa using hc)] at h
  cases h

end GssDB

namespace GssDB

/-- Helper: one extension step keeps the no-join-left-child property as
long as it is not the both-new cross attachment. -/
theorem extStep_preserves_noJoin (plans : List Plan)
    (hplans : ∀ p ∈ plans, p.isScan = true) (st : MkState) (c : Condition)
    (hroot : noJoinLeftChild st.root = true)
    (hflag : (extStep plans st c).usedBothNew = false) :
    noJoinLeftChild (extStep plans st c).root = true := by
  rcases extStep_root_cases plans st c with h | ⟨side, cs, hside, h⟩ | h
  · rw [h, (push_conds_preserves_shape c st.root).2]
    exact hroot
  · rw [h]
    have hs : side.isScan = true ∨ side = .nullp := by
      rcases hside with hm | hn
      · exact Or.inl (hplans side hm)
      · exact Or.inr hn
    obtain ⟨h1, h2⟩ := scanOrNull_noJoin side hs
    simp [noJoinLeftChild, h1, h2, hroot]
  · rw [h] at hflag; cases hflag

/-- Helper: the flag is monotone over the whole extension fold. -/
theorem foldl_flag_monotone (plans : List Plan) :
    ∀ (cs : List Condition) (st : MkState), st.usedBothNew = true →
      (List.foldl (extStep plans) st cs).usedBothNew = true := by
  intro cs
  induction cs with
  | nil => intro st h; simpa using h
  | cons c cs ih =>
      intro st h
      simp only [List.foldl_cons]
      exact ih _ (extStep_flag_monotone plans st c h)

/-- Helper: the extension fold keeps the no-join-left-child property when
the both-new case never fires. -/
theorem foldl_ext_noJoin (plans : List Plan)
    (hplans : ∀ p ∈ plans, p.isScan = true) :
    ∀ (cs : List Condition) (st : MkState),
      noJoinLeftChild st.root = true →
      (List.foldl (extStep plans) st cs).usedBothNew = false →
      noJoinLeftChild (List.foldl (extStep plans) st cs).root = true := by
  intro cs
  induction cs with
  | nil => intro st h _; simpa using h
  | cons c cs ih =>
      intro st h hflag
      simp only [List.foldl_cons] at hflag ⊢
      have hstep : (extStep plans st c).usedBothNew = false := by
        by_contra hc
        rw [foldl_flag_monotone plans cs _ (by simpa using hc)] at hflag
        cases hflag
      exact ih _ (extStep_preserves_noJoin plans hplans st c h hstep) hflag

/-- Helper: the Cartesian back-attachment grafts scans (or null) on the
left, preserving the no-join-left-child property. -/
theorem cartesianFallback_noJoin (plans : List Plan)
    (hplans : ∀ p ∈ plans, p.isScan = true) (scantbl : List Int) (root : Plan)
    (hroot : noJoinLeftChild root = true) :
    noJoinLeftChild (cartesianFallback plans scantbl root) = true := by
  rw [cartesianFallback]
  generalize List.range plans.length = idxs
  induction idxs generalizing root with
  | nil => simpa using hroot
  | cons i idxs ih =>
      simp only [List.foldl_cons]
      apply ih
      by_cases hc : scantbl[i]?.getD (-1) = -1
      · have hs : (plans[i]?.getD Plan.nullp).isScan = true ∨
            plans[i]?.getD Plan.nullp = .nullp := by
          cases hg : plans[i]? with
          | none => right; rfl
          | some x =>
              have hg2 : plans.get? i = some x := by
                rw [List.get?_eq_getElem?]; exact hg
              exact Or.inl (hplans x (List.get?_mem hg2))
        obtain ⟨h1, h2⟩ := scanOrNull_noJoin _ hs
        simp [noJoinLeftChild, hc, h1, h2, hroot]
      · simp [hc, hroot]

end GssDB

namespace GssDB

/-- Helper: a successful seed step produces a join of two scans (or nulls)
with the flag clear. -/
theorem seedStep_noJoin (enl esm : Bool) (plans : List Plan)
    (hplans : ∀ p ∈ plans, p.isScan = true)
    (scantbl0 : List Int) (joined0 : List String) (c : Condition) (st : MkState)
    (h : seedStep enl esm plans scantbl0 joined0 c = .ok st) :
    noJoinLeftChild st.root = true ∧ st.usedBothNew = false := by
  have hL := pop_scan_mem_or_null scantbl0 c.lhs_col.tab_name joined0 plans
  have hR := pop_scan_mem_or_null
    (pop_scan scantbl0 c.lhs_col.tab_name joined0 plans).2.1 c.rhs_col.tab_name
    (pop_scan scantbl0 c.lhs_col.tab_name joined0 plans).2.2 plans
  have hLs : ((pop_scan scantbl0 c.lhs_col.tab_name joined0 plans).1).isScan = true ∨
      (pop_scan scantbl0 c.lhs_col.tab_name joined0 plans).1 = .nullp := by
    rcases hL with hm | hn
    · exact Or.inl (hplans _ hm)
    · exact Or.inr hn
  have hRs : ((pop_scan (pop_scan scantbl0 c.lhs_col.tab_name joined0 plans).2.1
      c.rhs_col.tab_name
      (pop_scan scantbl0 c.lhs_col.tab_name joined0 plans).2.2 plans).1).isScan = true ∨
      (pop_scan (pop_scan scantbl0 c.lhs_col.tab_name joined0 plans).2.1
        c.rhs_col.tab_name
        (pop_scan scantbl0 c.lhs_col.tab_name joined0 plans).2.2 plans).1 = .nullp := by
    rcases hR with hm | hn
    · exact Or.inl (hplans _ hm)
    · exact Or.inr hn
  obtain ⟨hL1, hL2⟩ := scanOrNull_noJoin _ hLs
  obtain ⟨hR1, hR2⟩ := scanOrNull_noJoin _ hRs
  simp only [seedStep] at h
  split_ifs at h <;>
    · cases h
      exact ⟨by simp [noJoinLeftChild, hL1, hL2, hR2], rfl⟩

/-- C1 amended: the code builds the mirror image of a left-deep tree.  In
`make_one_rel`, the seed join takes two scans, and the one-new-table
extension grafts the new table's scan as the *left* child with the previous
root as the *right* child, so whenever the both-tables-new cross attachment
never fires, no `JoinPlan` in the result has a `JoinPlan` as its left
child (the join spine grows to the right; right children may be joins). -/
theorem C1_amended_right_deep (sm : SmManager) (enl esm : Bool) (q : Query)
    (p : Plan) (h : make_one_rel_aux sm enl esm q = .ok (p, false)) :
    noJoinLeftChild p = true := by
  simp only [make_one_rel_aux] at h
  cases hb : buildScans sm q.tables q.conds with
  | error e => rw [hb, exceptBind_error] at h; cases h
  | ok out =>
      rw [hb, exceptBind_ok] at h
      have hplans := buildScans_all_scans sm q.tables q.conds out hb
      have hheadD : noJoinLeftChild (out.1.headD .nullp) = true := by
        cases hout : out.1 with
        | nil => rfl
        | cons a l =>
            have ha := hplans a (by rw [hout]; exact List.mem_cons_self a l)
            simp only [List.headD_cons]
            exact (scanOrNull_noJoin a (Or.inl ha)).2
      by_cases hlen : (q.tables.length == 1) = true
      · rw [if_pos hlen] at h
        injection h with h2
        injection h2 with hp hflag
        rw [← hp]
        exact hheadD
      · rw [if_neg hlen] at h
        cases hc : out.2 with
        | nil =>
            simp only [hc] at h
            injection h with h2
            injection h2 with hp hflag
            rw [← hp]
            exact cartesianFallback_noJoin out.1 hplans _ _ hheadD
        | cons c rest =>
            simp only [hc] at h
            cases hs : seedStep enl esm out.1 (List.replicate q.tables.length (-1))
                (List.replicate q.tables.length "") c with
            | error e => rw [hs, exceptBind_error] at h; cases h
            | ok st0 =>
                rw [hs, exceptBind_ok] at h
                injection h with h2
                injection h2 with hp hflag
                rw [← hp]
                apply cartesianFallback_noJoin out.1 hplans
                exact foldl_ext_noJoin out.1 hplans rest st0
                  (seedStep_noJoin enl esm out.1 hplans _ _ c st0 hs).1 hflag

/-- C1 counterexample: for the three-table chain query `A ⋈ B ⋈ C`, the
one-new-table extension (planner.cpp:379) attaches the previous root as the
*right* child of the new `JoinPlan`, so the primary construction path
itself produces a join whose right child is a `JoinPlan` (its condition
list is non-empty, so it is not a Cartesian back-attachment), contradicting
the left-deep claim. -/
theorem C1_counterexample :
    make_one_rel smABC true true qABC =
      .ok (.join .T_NestLoop (.scan .T_SeqScan "C" [] [] [])
            (.join .T_NestLoop (.scan .T_SeqScan "A" [] [] [])
              (.scan .T_SeqScan "B" [] [] []) [cAB])
            [reverseCond cBC]) ∧
    Plan.isJoin (.join .T_NestLoop (.scan .T_SeqScan "A" [] [] [])
      (.scan .T_SeqScan "B" [] [] []) [cAB]) = true ∧
    ([reverseCond cBC] : List Condition) ≠ [] :=
  ⟨rfl, rfl, by decide⟩

/-- C1 witness: the amended claim evaluated on the same three-table chain
query: the constructed tree has no join as a left child anywhere. -/
theorem C1_amended_right_deep_witness :
    noJoinLeftChild (.join .T_NestLoop (.scan .T_SeqScan "C" [] [] [])
      (.join .T_NestLoop (.scan .T_SeqScan "A" [] [] [])
        (.scan .T_SeqScan "B" [] [] []) [cAB])
      [reverseCond cBC]) = true :=
  C1_amended_right_deep smABC true true qABC _ rfl

end GssDB

namespace GssDB

/-- Helper: `push_conds` never turns a non-null plan into null. -/
theorem push_conds_ne_nullp (c : Condition) (p : Plan) (h : p ≠ .nullp) :
    (push_conds c p).2 ≠ .nullp := by
  cases p with
  | nullp => exact absurd rfl h
  | scan tag tn cs fcs idx =>
      simp only [push_conds]; split_ifs <;> simp
  | join a l r cs =>
      simp only [push_conds]; split_ifs <;> simp
  | filter sub cs => simp [push_conds, h]
  | proj sub cols => simp [push_conds, h]
  | sort sub col d => simp [push_conds, h]

/-- Helper: an extension step keeps the root non-null. -/
theorem extStep_root_ne_nullp (plans : List Plan) (st : MkState) (c : Condition)
    (h : st.root ≠ .nullp) : (extStep plans st c).root ≠ .nullp := by
  simp only [extStep]
  split_ifs <;> simp [push_conds_ne_nullp c st.root h]

/-- Helper: the extension fold keeps the root non-null. -/
theorem foldl_ext_ne_nullp (plans : List Plan) :
    ∀ (cs : List Condition) (st : MkState), st.root ≠ .nullp →
      (List.foldl (extStep plans) st cs).root ≠ .nullp := by
  intro cs
  induction cs with
  | nil => intro st h; simpa using h
  | cons c cs ih =>
      intro st h
      simp only [List.foldl_cons]
      exact ih _ (extStep_root_ne_nullp plans st c h)

/-- Helper: the Cartesian back-attachment keeps the root non-null. -/
theorem cartesianFallback_ne_nullp (plans : List Plan) (scantbl : List Int)
    (root : Plan) (h : root ≠ .nullp) :
    cartesianFallback plans scantbl root ≠ .nullp := by
  rw [cartesianFallback]
  generalize List.range plans.length = idxs
  induction idxs generalizing root with
  | nil => simpa using h
  | cons i idxs ih =>
      simp only [List.foldl_cons]
      apply ih
      by_cases hc : scantbl[i]?.getD (-1) = -1 <;> simp [hc, h]

/-- Helper: a successful seed step has a join at the root. -/
theorem seedStep_root_ne_nullp (enl esm : Bool) (plans : List Plan)
    (scantbl0 : List Int) (joined0 : List String) (c : Condition) (st : MkState)
    (h : seedStep enl esm plans scantbl0 joined0 c = .ok st) :
    st.root ≠ .nullp := by
  simp only [seedStep] at h
  split_ifs at h <;> (cases h; simp)

/-- Helper: `buildScans` yields one scan per table. -/
theorem buildScans_length (sm : SmManager) :
    ∀ (ts : List String) (conds : List Condition) (out : List Plan × List Condition),
      buildScans sm ts conds = .ok out → out.1.length = ts.length := by
  intro ts
  induction ts with
  | nil =>
      intro conds out h
      simp only [buildScans] at h
      cases h
      rfl
  | cons t ts ih =>
      intro conds out h
      simp only [buildScans] at h
      cases hic : get_index_cols sm t (pop_conds conds t).1 with
      | error e => rw [hic, exceptBind_error] at h; cases h
      | ok ic =>
          rw [hic, exceptBind_ok] at h
          cases hrec : buildScans sm ts (pop_conds conds t).2 with
          | error e => rw [hrec, exceptBind_error] at h; cases h
          | ok more =>
              rw [hrec, exceptBind_ok] at h
              cases h
              simp [ih _ _ hrec]

/-- Helper: for a non-empty table list `make_one_rel` returns a non-null
plan. -/
theorem make_one_rel_aux_ne_nullp (sm : SmManager) (enl esm : Bool) (q : Query)
    (p : Plan) (fl : Bool) (htab : q.tables ≠ [])
    (h : make_one_rel_aux sm enl esm q = .ok (p, fl)) : p ≠ .nullp := by
  simp only [make_one_rel_aux] at h
  cases hb : buildScans sm q.tables q.conds with
  | error e => rw [hb, exceptBind_error] at h; cases h
  | ok out =>
      rw [hb, exceptBind_ok] at h
      have hplans := buildScans_all_scans sm q.tables q.conds out hb
      have hlen1 : out.1.length = q.tables.length := buildScans_length sm q.tables q.conds out hb
      have hne : out.1 ≠ [] := by
        intro hnil
        apply htab
        have := hlen1
        rw [hnil] at this
        exact List.length_eq_zero.mp this.symm
      have hheadD : out.1.headD .nullp ≠ .nullp := by
        cases hout : out.1 with
        | nil => exact absurd hout hne
        | cons a l =>
            have ha := hplans a (by rw [hout]; exact List.mem_cons_self a l)
            simp only [List.headD_cons]
            intro hbad
            rw [hbad] at ha
            cases ha
      by_cases hlen : (q.tables.length == 1) = true
      · rw [if_pos hlen] at h
        injection h with h2
        injection h2 with hp hflag
        rw [← hp]
        exact hheadD
      · rw [if_neg hlen] at h
        cases hc : out.2 with
        | nil =>
            simp only [hc] at h
            injection h with h2
            injection h2 with hp hflag
            rw [← hp]
            exact cartesianFallback_ne_nullp out.1 _ _ hheadD
        | cons c rest =>
            simp only [hc] at h
            cases hs : seedStep enl esm out.1 (List.replicate q.tables.length (-1))
                (List.replicate q.tables.length "") c with
            | error e => rw [hs, exceptBind_error] at h; cases h
            | ok st0 =>
                rw [hs, exceptBind_ok] at h
                injection h with h2
                injection h2 with hp hflag
                rw [← hp]
                exact cartesianFallback_ne_nullp out.1 _ _
                  (foldl_ext_ne_nullp out.1 rest st0
                    (seedStep_root_ne_nullp enl esm out.1 _ _ c st0 hs))

end GssDB

namespace GssDB

/-- Helper: reduction of `Except.map` on a success. -/
theorem exceptMap_ok {ε α β : Type} (f : α → β) (a : α) :
    (Except.map f (.ok a) : Except ε β) = .ok (f a) := rfl

/-- Helper: reduction of `Except.map` on an error. -/
theorem exceptMap_error {ε α β : Type} (f : α → β) (e : ε) :
    (Except.map f (.error e) : Except ε β) = .error e := rfl

/-- Helper: the logical phase only reorders `tables`. -/
theorem logical_preserves (sm : SmManager) (q : Query) :
    (logical_optimization sm q).parse = q.parse ∧
    (logical_optimization sm q).cols = q.cols ∧
    (logical_optimization sm q).conds = q.conds := by
  simp only [logical_optimization, predicate_pushdown, projection_pushdown,
    join_order_optimization]
  split_ifs <;> exact ⟨rfl, rfl, rfl⟩

/-- Helper: `greedyLoop` only appends to its accumulator. -/
theorem greedyLoop_extends (stats sorted : List (String × Nat))
    (conds : List Condition) :
    ∀ (fuel : Nat) (res : List String),
      ∃ ext, greedyLoop stats sorted conds fuel res = res ++ ext := by
  intro fuel
  induction fuel with
  | zero => intro res; exact ⟨[], by simp [greedyLoop]⟩
  | succ fuel ih =>
      intro res
      simp only [greedyLoop]
      by_cases hl : res.length < stats.length
      · rw [if_pos hl]
        cases hs : selectBest stats conds res with
        | some t =>
            obtain ⟨ext, hext⟩ := ih (res ++ [t])
            exact ⟨[t] ++ ext, by simpa [List.append_assoc] using hext⟩
        | none =>
            cases hf : (sorted.map Prod.fst).find? (fun s => !res.contains s) with
            | some s =>
                obtain ⟨ext, hext⟩ := ih (res ++ [s])
                exact ⟨[s] ++ ext, by simpa [List.append_assoc] using hext⟩
            | none =>
                obtain ⟨ext, hext⟩ := ih res
                exact ⟨ext, by simpa using hext⟩
      · rw [if_neg hl]
        exact ⟨[], by simp⟩

/-- Helper: the logical phase keeps the table list non-empty. -/
theorem logical_tables_ne_nil (sm : SmManager) (q : Query)
    (h : q.tables ≠ []) : (logical_optimization sm q).tables ≠ [] := by
  simp only [logical_optimization, predicate_pushdown, projection_pushdown,
    join_order_optimization]
  by_cases hle : q.tables.length ≤ 2
  · rw [if_pos hle]; exact h
  · rw [if_neg hle]
    simp only [greedy_join_order_optimization]
    have hlen : (q.tables.map fun t => (t, estimate_table_cardinality sm t)).length =
        q.tables.length := by simp
    by_cases hle2 : (q.tables.map fun t => (t, estimate_table_cardinality sm t)).length ≤ 2
    · omega
    · rw [if_neg hle2]
      obtain ⟨ext, hext⟩ := greedyLoop_extends
        (q.tables.map fun t => (t, estimate_table_cardinality sm t))
        (sortByCard (q.tables.map fun t => (t, estimate_table_cardinality sm t)))
        q.conds
        (q.tables.map fun t => (t, estimate_table_cardinality sm t)).length
        (((sortByCard (q.tables.map fun t =>
            (t, estimate_table_cardinality sm t))).take 2).map Prod.fst)
      intro hnil
      rw [hext] at hnil
      have h2 : (((sortByCard (q.tables.map fun t =>
          (t, estimate_table_cardinality sm t))).take 2).map Prod.fst).length = 2 := by
        simp only [List.length_map, List.length_take]
        rw [sortByCard, List.length_insertionSort]
        omega
      have := congrArg List.length hnil
      simp only [List.length_append, h2, List.length_nil] at this
      omega

/-- Helper: `queryAfterMakeOneRel` only rewrites `conds`. -/
theorem queryAfter_preserves (sm : SmManager) (q : Query) :
    (queryAfterMakeOneRel sm q).parse = q.parse ∧
    (queryAfterMakeOneRel sm q).cols = q.cols ∧
    (queryAfterMakeOneRel sm q).tables = q.tables := by
  simp only [queryAfterMakeOneRel]
  cases buildScans sm q.tables q.conds with
  | error e => exact ⟨rfl, rfl, rfl⟩
  | ok out => split_ifs <;> exact ⟨rfl, rfl, rfl⟩

/-- Helper: filter pushdown never nulls a non-null root. -/
theorem push_filters_down_ne_nullp (p : Plan) (h : p ≠ .nullp) :
    push_filters_down p ≠ .nullp := by
  cases p with
  | nullp => exact absurd rfl h
  | scan tag tn cs fcs idx =>
      simp only [push_filters_down]
      split_ifs <;> simp
  | join a l r cs =>
      simp only [push_filters_down, clear_conditions_from_plan]
      simp
  | filter sub cs => simp [push_filters_down]
  | proj sub cols => simp [push_filters_down]
  | sort sub col d => simp [push_filters_down]

/-- Helper: on a non-null plan, projection pushdown always wraps the root
in a `ProjectionPlan` over the query's select list. -/
theorem apply_projection_pushdown_root (sm : SmManager) (plan : Plan) (q : Query)
    (h : plan ≠ .nullp) :
    ∃ inner, apply_projection_pushdown sm plan q = .proj inner q.cols := by
  simp only [apply_projection_pushdown]
  have hb : (plan == Plan.nullp) = false := by
    simp [beq_eq_false_iff_ne, h]
  rw [hb]
  simp only [Bool.false_eq_true, if_false]
  exact ⟨_, rfl⟩

end GssDB

namespace GssDB

/-- C2 amended: for a SELECT with ORDER BY, the root of the plan returned
by `generate_select_plan` is the `SortPlan` and the `ProjectionPlan` sits
directly beneath it as its child (sort wraps projection, not the other way
round); the sort key has `descending = true` exactly when the ORDER BY
direction is DESC. -/
theorem C2_amended_sort_above_projection (sm : SmManager) (enl esm : Bool)
    (q : Query) (p : Plan)
    (hsort : q.parse.has_sort = true) (htab : q.tables ≠ [])
    (h : generate_select_plan sm enl esm q = .ok p) :
    ∃ inner key, p = .sort (.proj inner q.cols) key
      (q.parse.order.orderby_dir == .OrderBy_DESC) := by
  rw [generate_select_plan, physical_optimization] at h
  obtain ⟨hq0p, hq0c, hq0conds⟩ := logical_preserves sm q
  have hq0t := logical_tables_ne_nil sm q htab
  cases ha : make_one_rel_aux sm enl esm (logical_optimization sm q) with
  | error e =>
      rw [make_one_rel, ha, exceptMap_error, exceptBind_error] at h
      cases h
  | ok pf =>
      rw [make_one_rel, ha, exceptMap_ok, exceptBind_ok] at h
      simp only [apply_predicate_pushdown] at h
      have hnn : pf.1 ≠ .nullp := by
        apply make_one_rel_aux_ne_nullp sm enl esm _ pf.1 pf.2 hq0t
        rw [ha]
      have hpf : apply_predicate_pushdown pf.1 ≠ .nullp :=
        push_filters_down_ne_nullp _ hnn
      obtain ⟨hq1p, hq1c, hq1t⟩ :=
        queryAfter_preserves sm (logical_optimization sm q)
      obtain ⟨inner, hproj⟩ := apply_projection_pushdown_root sm
        (apply_predicate_pushdown pf.1)
        (queryAfterMakeOneRel sm (logical_optimization sm q)) hpf
      rw [apply_predicate_pushdown] at hproj
      rw [hproj] at h
      rw [generate_sort_plan] at h
      have hps : (queryAfterMakeOneRel sm (logical_optimization sm q)).parse =
          q.parse := by rw [hq1p, hq0p]
      rw [hps, hsort] at h
      simp only [Bool.not_true, Bool.false_eq_true, if_false] at h
      cases hfold : (queryAfterMakeOneRel sm (logical_optimization sm q)).tables.foldlM
          (fun (acc : List ColMeta) t =>
            match sm.get_table t with
            | some tab => Except.ok (acc ++ tab.cols)
            | none => Except.error (PlanErr.TableNotFound t))
          ([] : List ColMeta) with
      | error e => rw [hfold, exceptBind_error] at h; cases h
      | ok all_cols =>
          rw [hfold, exceptBind_ok] at h
          injection h with h2
          rw [hq1c, hq0c] at h2
          exact ⟨inner, _, h2.symm⟩

/-- C2 counterexample: for `SELECT t.a FROM t ORDER BY a DESC` the root of
the generated plan is the `SortPlan`, with the `ProjectionPlan` beneath it
— not a `ProjectionPlan` root with the sort underneath as claimed. -/
theorem C2_counterexample :
    generate_select_plan smT true true qTsort =
      .ok (.sort (.proj (.scan .T_SeqScan "t" [] [] []) [⟨"t", "a"⟩])
            ⟨"t", "a"⟩ true) ∧
    Plan.isProj (.sort (.proj (.scan .T_SeqScan "t" [] [] []) [⟨"t", "a"⟩])
      ⟨"t", "a"⟩ true) = false :=
  ⟨rfl, rfl⟩

/-- C2 witness: the amended claim applied to the concrete DESC query: the
plan is a sort over a projection with `descending = true`. -/
theorem C2_amended_sort_above_projection_witness :
    ∃ inner key,
      (Plan.sort (.proj (.scan .T_SeqScan "t" [] [] []) [⟨"t", "a"⟩])
          ⟨"t", "a"⟩ true) =
        .sort (.proj inner qTsort.cols) key
          (qTsort.parse.order.orderby_dir == .OrderBy_DESC) :=
  C2_amended_sort_above_projection smT true true qTsort _ rfl (by decide) rfl

end GssDB

namespace GssDB

/-- C9 counterexample: for 258 pages and 10 records per page the source
computes `(size_t)(2570 * 0.7)` in double precision, which yields 1798,
while the claimed exact formula `max(1, (num_pages − 1) × records_per_page
× 0.7)` truncates to 1799: the exact product `2570 · fl(0.7)` lies 1028
units of 2⁻⁵³ below 1799, more than half an ulp, so it rounds down to
`1799 − 2⁻⁴²` and truncation loses one. -/
theorem C9_counterexample :
    estimate_table_cardinality smFP "t" = 1798 ∧
    specCardinalityFormula 258 10 = 1799 ∧
    estimate_table_cardinality smFP "t" ≠ specCardinalityFormula 258 10 := by
  refine ⟨by decide, by decide, by decide⟩

/-- C9 amended: cardinality estimation returns
`max(1, trunc(n · fl(0.7)))` where `n = (num_pages − 1) × records_per_page`
and the multiplication is IEEE-754 double arithmetic (occasionally one
below the exact `⌊0.7·n⌋`); it returns 1000 when the file handle is
missing or the header read throws; the estimate is never 0 and estimation
never fails. -/
theorem C9_amended_estimate (sm : SmManager) (t : String) :
    1 ≤ estimate_table_cardinality sm t ∧
    (sm.get_fh t = none → estimate_table_cardinality sm t = 1000) ∧
    (∀ e, sm.get_fh t = some (.error e) →
        estimate_table_cardinality sm t = 1000) ∧
    (∀ hdr, sm.get_fh t = some (.ok hdr) →
        estimate_table_cardinality sm t =
          max 1 (truncDoubleMul07
            ((hdr.num_pages - 1) * hdr.num_records_per_page))) := by
  refine ⟨?_, ?_, ?_, ?_⟩
  · cases hf : sm.get_fh t with
    | none => simp only [estimate_table_cardinality, hf]; omega
    | some r =>
        cases r with
        | error e => simp only [estimate_table_cardinality, hf]; omega
        | ok hdr =>
            simp only [estimate_table_cardinality, hf]
            split_ifs <;> omega
  · intro hf; simp only [estimate_table_cardinality, hf]
  · intro e hf; simp only [estimate_table_cardinality, hf]
  · intro hdr hf
    simp only [estimate_table_cardinality, hf]
    have hpages : (if hdr.num_pages > 1 then hdr.num_pages - 1 else 0) =
        hdr.num_pages - 1 := by split_ifs <;> omega
    rw [hpages]
    have hmax : ∀ r : Nat, (if r > 0 then r else 1) = max 1 r := by
      intro r; split_ifs <;> omega
    exact hmax _

/-- C9 witness: the amended formula applied at the concrete header
(258 pages, 10 records per page). -/
theorem C9_amended_estimate_witness :
    estimate_table_cardinality smFP "t" =
      max 1 (truncDoubleMul07 ((258 - 1) * 10)) :=
  (C9_amended_estimate smFP "t").2.2.2 ⟨258, 10⟩ rfl

end GssDB

namespace GssDB

/-- Helper: clearing scan conditions does not affect filter-wrapped scans. -/
theorem clear_hoisted (p : Plan) :
    hoistedScansCleared (clear_conditions_from_plan p) = hoistedScansCleared p := by
  induction p with
  | nullp => rfl
  | scan tag tn cs fcs idx => rfl
  | join a l r cs ihl ihr =>
      simp only [clear_conditions_from_plan, hoistedScansCleared, ihl, ihr]
  | filter sub cs ih => rfl
  | proj sub cols ih => rfl
  | sort sub col d ih => rfl

/-- Helper: after clearing, no exposed scan carries any condition. -/
theorem clear_exposed (p : Plan) :
    exposedScansNoValConds (clear_conditions_from_plan p) = true := by
  induction p with
  | nullp => rfl
  | scan tag tn cs fcs idx => rfl
  | join a l r cs ihl ihr =>
      simp only [clear_conditions_from_plan, exposedScansNoValConds, ihl, ihr]
      rfl
  | filter sub cs ih => rfl
  | proj sub cols ih => rfl
  | sort sub col d ih => rfl

/-- Helper: conditions extracted from a tree with no literal conditions on
exposed scans are all column-column conditions. -/
theorem extract_noVal (p : Plan) (h : exposedScansNoValConds p = true) :
    ∀ c ∈ extract_conditions_from_plan p, c.is_rhs_val = false := by
  induction p with
  | nullp => intro c hc; cases hc
  | scan tag tn cs fcs idx =>
      intro c hc
      simp only [exposedScansNoValConds, List.all_eq_true] at h
      have := h c hc
      simpa using this
  | join a l r cs ihl ihr =>
      intro c hc
      simp only [exposedScansNoValConds, Bool.and_eq_true] at h
      simp only [extract_conditions_from_plan, List.mem_append] at hc
      rcases hc with hc | hc
      · exact ihl h.1 c hc
      · exact ihr h.2 c hc
  | filter sub cs ih => intro c hc; cases hc
  | proj sub cols ih => intro c hc; cases hc
  | sort sub col d ih => intro c hc; cases hc

/-- Helper: the main pushdown invariant: on a scan/join tree whose scans
satisfy the `pop_conds` placement invariant, every filter-wrapped scan
comes out with both condition lists empty, and no exposed scan keeps a
literal condition. -/
theorem push_filters_down_inv (p : Plan) (h1 : scanJoinOnly p = true)
    (h2 : scansWF p = true) :
    hoistedScansCleared (push_filters_down p) = true ∧
    exposedScansNoValConds (push_filters_down p) = true := by
  induction p with
  | nullp => exact ⟨rfl, rfl⟩
  | scan tag tn cs fcs idx =>
      simp only [push_filters_down]
      by_cases he : (cs.filter (fun c => c.is_rhs_val && c.lhs_col.tab_name == tn)).isEmpty
      · rw [if_neg (by simp [he])]
        refine ⟨rfl, ?_⟩
        simp only [exposedScansNoValConds, List.all_eq_true]
        intro c hc
        simp only [List.isEmpty_iff, List.filter_eq_nil_iff] at he
        have := he c hc
        simp only [scansWF, List.all_eq_true] at h2
        have hwf := h2 c hc
        simp only [condWFForScan] at hwf
        by_cases hv : c.is_rhs_val
        · rw [if_pos hv] at hwf
          exact absurd (by simp [hv, hwf]) this
        · simpa using hv
      · rw [if_pos (by simpa using he)]
        exact ⟨by simp [hoistedScansCleared], rfl⟩
  | join a l r cs ihl ihr =>
      simp only [scanJoinOnly, Bool.and_eq_true] at h1
      simp only [scansWF, Bool.and_eq_true] at h2
      obtain ⟨hAl, hBl⟩ := ihl h1.1 h2.1
      obtain ⟨hAr, hBr⟩ := ihr h1.2 h2.2
      simp only [push_filters_down]
      have hnoval : ∀ c ∈ extract_conditions_from_plan
          ( .join a (push_filters_down l) (push_filters_down r) cs),
          c.is_rhs_val = false := by
        intro c hc
        simp only [extract_conditions_from_plan, List.mem_append] at hc
        rcases hc with hc | hc
        · exact extract_noVal _ hBl c hc
        · exact extract_noVal _ hBr c hc
      have hleft : (extract_conditions_from_plan
          (.join a (push_filters_down l) (push_filters_down r) cs)).filter
          (fun c => c.is_rhs_val &&
            (collect_table_names_from_plan (push_filters_down l)).contains
              c.lhs_col.tab_name) = [] := by
        rw [List.filter_eq_nil_iff]
        intro c hc
        simp [hnoval c hc]
      have hright : (extract_conditions_from_plan
          (.join a (push_filters_down l) (push_filters_down r) cs)).filter
          (fun c => c.is_rhs_val &&
            !(collect_table_names_from_plan (push_filters_down l)).contains
              c.lhs_col.tab_name &&
            (collect_table_names_from_plan (push_filters_down r)).contains
              c.lhs_col.tab_name) = [] := by
        rw [List.filter_eq_nil_iff]
        intro c hc
        simp [hnoval c hc]
      rw [hleft, hright]
      simp only [List.isEmpty_nil, if_true]
      constructor
      · rw [clear_hoisted]
        simp only [hoistedScansCleared, hAl, hAr]
        rfl
      · exact clear_exposed _
  | filter sub cs ih => cases h1
  | proj sub cols ih => cases h1
  | sort sub col d ih => cases h1

end GssDB

namespace GssDB

/-- Helper: clearing conditions does not change scan skeletons. -/
theorem skeleton_clear (p : Plan) :
    scanSkeletons (clear_conditions_from_plan p) = scanSkeletons p := by
  induction p with
  | nullp => rfl
  | scan tag tn cs fcs idx => rfl
  | join a l r cs ihl ihr =>
      simp only [clear_conditions_from_plan, scanSkeletons, ihl, ihr]
  | filter sub cs ih => rfl
  | proj sub cols ih => rfl
  | sort sub col d ih => rfl

/-- Helper: filter pushdown only moves conditions; every scan's tag, table
and index columns are preserved, in order. -/
theorem push_filters_down_skeletons (p : Plan) :
    scanSkeletons (push_filters_down p) = scanSkeletons p := by
  induction p with
  | nullp => rfl
  | scan tag tn cs fcs idx =>
      simp only [push_filters_down]
      split_ifs <;> rfl
  | join a l r cs ihl ihr =>
      have hsk : ∀ (q : Plan) (condsf : List Condition) (c : Prop)
          (inst : Decidable c),
          scanSkeletons (@ite _ c inst q (.filter q condsf)) = scanSkeletons q := by
        intro q condsf c inst
        by_cases hc : c
        · rw [if_pos hc]
        · rw [if_neg hc]; rfl
      simp only [push_filters_down]
      rw [skeleton_clear]
      simp only [scanSkeletons]
      rw [hsk, hsk, ihl, ihr]
  | filter sub cs ih => rfl
  | proj sub cols ih => rfl
  | sort sub col d ih => rfl

/-- C6: for every plan of the shape `make_one_rel` produces (a scan/join
tree whose scan conditions respect the `pop_conds` placement invariant),
after `apply_predicate_pushdown` every `ScanPlan` whose stored conditions
were hoisted into a `FilterPlan` (i.e. every scan sitting directly under a
filter) has both `conds` and `fed_conds` cleared, and no other field of
any scan node is changed (tag, table name and index columns are preserved
in order). -/
theorem C6_hoisted_scans_cleared (p : Plan)
    (h1 : scanJoinOnly p = true) (h2 : scansWF p = true) :
    hoistedScansCleared (apply_predicate_pushdown p) = true ∧
    scanSkeletons (apply_predicate_pushdown p) = scanSkeletons p :=
  ⟨(push_filters_down_inv p h1 h2).1, push_filters_down_skeletons p⟩

/-- C6 witness: the invariant applied to a concrete two-table join whose
left scan holds the literal condition `t.a = v`. -/
theorem C6_hoisted_scans_cleared_witness :
    hoistedScansCleared (apply_predicate_pushdown (.join .T_NestLoop
        (.scan .T_SeqScan "t" [cv] [cv] [])
        (.scan .T_SeqScan "B" [] [] []) [])) = true ∧
    scanSkeletons (apply_predicate_pushdown (.join .T_NestLoop
        (.scan .T_SeqScan "t" [cv] [cv] [])
        (.scan .T_SeqScan "B" [] [] []) [])) =
      scanSkeletons (.join .T_NestLoop
        (.scan .T_SeqScan "t" [cv] [cv] [])
        (.scan .T_SeqScan "B" [] [] []) []) :=
  C6_hoisted_scans_cleared _ (by decide) (by decide)

end GssDB

namespace GssDB

/-- Helper: two sorted permutations of a list with pairwise-distinct
cardinalities coincide. -/
theorem sorted_perm_nodup_snd_eq :
    ∀ {l1 l2 : List (String × Nat)}, l1.Perm l2 →
      l1.Sorted cardLE → l2.Sorted cardLE → (l1.map Prod.snd).Nodup → l1 = l2 := by
  intro l1
  induction l1 with
  | nil => intro l2 hp _ _ _; exact (hp.nil_eq).symm ▸ rfl
  | cons a t1 ih =>
      intro l2 hp hs1 hs2 hnd
      have hmap : (a.2 :: t1.map Prod.snd).Nodup := by
        rw [← List.map_cons]; exact hnd
      cases l2 with
      | nil => exact absurd hp.symm.nil_eq (by simp)
      | cons b t2 =>
          by_cases hab : a = b
          · subst hab
            have hp' := hp.cons_inv
            have := ih hp' (List.sorted_cons.mp hs1).2 (List.sorted_cons.mp hs2).2
              (List.nodup_cons.mp hmap).2
            rw [this]
          · exfalso
            have hamem : a ∈ b :: t2 := hp.mem_iff.mp (List.mem_cons_self a t1)
            have hbmem : b ∈ a :: t1 := hp.symm.mem_iff.mp (List.mem_cons_self b t2)
            have hat2 : a ∈ t2 := by
              rcases List.mem_cons.mp hamem with h | h
              · exact absurd h hab
              · exact h
            have hbt1 : b ∈ t1 := by
              rcases List.mem_cons.mp hbmem with h | h
              · exact absurd h.symm hab
              · exact h
            have hba : cardLE b a := (List.sorted_cons.mp hs2).1 a hat2
            have hab2 : cardLE a b := (List.sorted_cons.mp hs1).1 b hbt1
            have heq : a.2 = b.2 := Nat.le_antisymm hab2 hba
            have : a.2 ∈ t1.map Prod.snd := by
              rw [heq]
              exact List.mem_map_of_mem Prod.snd hbt1
            exact (List.nodup_cons.mp hmap).1 this

/-- Helper: equal-cardinality-free permutations sort identically. -/
theorem sortByCard_perm_eq {s1 s2 : List (String × Nat)} (hp : s1.Perm s2)
    (hnd : (s1.map Prod.snd).Nodup) : sortByCard s1 = sortByCard s2 := by
  apply sorted_perm_nodup_snd_eq
  · exact (List.perm_insertionSort cardLE s1).trans
      (hp.trans (List.perm_insertionSort cardLE s2).symm)
  · exact List.sorted_insertionSort cardLE s1
  · exact List.sorted_insertionSort cardLE s2
  · exact (((List.perm_insertionSort cardLE s1).map Prod.snd).nodup_iff).mpr hnd

end GssDB


namespace GssDB

/-- Helper: `find?` returns the head of the filtered list. -/
theorem find?_eq_head?_filter {α : Type} (p : α → Bool) :
    ∀ (l : List α), l.find? p = (l.filter p).head? := by
  intro l
  induction l with
  | nil => rfl
  | cons x xs ih =>
      cases hx : p x
      · rw [List.find?_cons_of_neg _ (by simp [hx]),
           List.filter_cons_of_neg (by simp [hx]), ih]
      · rw [List.find?_cons_of_pos _ (by simp [hx]),
           List.filter_cons_of_pos (by simp [hx]), List.head?_cons]

/-- Helper: permutations of lists with at most one element are equal. -/
theorem perm_length_le_one_eq {α : Type} {l1 l2 : List α}
    (hp : l1.Perm l2) (h : l1.length ≤ 1) : l1 = l2 := by
  cases l1 with
  | nil => exact hp.nil_eq
  | cons x xs =>
      cases xs with
      | nil => exact List.singleton_perm.mp hp
      | cons y ys => simp at h

/-- Helper: table-cardinality lookups agree on permuted statistics with
duplicate-free names. -/
theorem cardLookup_perm {s1 s2 : List (String × Nat)} (hp : s1.Perm s2)
    (hnd : (s1.map Prod.fst).Nodup) :
    ∀ t, cardLookup s1 t = cardLookup s2 t := by
  intro t
  have hinj := List.inj_on_of_nodup_map hnd
  have hperm : (s1.reverse.filter (fun q => q.1 == t)).Perm
      (s2.reverse.filter (fun q => q.1 == t)) :=
    ((s1.reverse_perm.trans hp).trans s2.reverse_perm.symm).filter _
  have hlen : (s1.reverse.filter (fun q => q.1 == t)).length ≤ 1 := by
    rcases hfe : s1.reverse.filter (fun q => q.1 == t) with _ | ⟨x, xs⟩
    · rw [hfe]; simp
    · rcases hxs : xs with _ | ⟨y, ys⟩
      · rw [hfe, hxs]; simp
      · subst hxs
        exfalso
        have hx : x ∈ s1.reverse.filter (fun q => q.1 == t) := by rw [hfe]; simp
        have hy : y ∈ s1.reverse.filter (fun q => q.1 == t) := by
          rw [hfe]; simp
        have hx1 := List.of_mem_filter hx
        have hy1 := List.of_mem_filter hy
        have hxm : x ∈ s1 := s1.reverse_perm.mem_iff.mp (List.mem_of_mem_filter hx)
        have hym : y ∈ s1 := s1.reverse_perm.mem_iff.mp (List.mem_of_mem_filter hy)
        have hxy : x = y := by
          apply hinj hxm hym
          have h1 : x.1 = t := by simpa using hx1
          have h2 : y.1 = t := by simpa using hy1
          rw [h1, h2]
        have hndf : (s1.reverse.filter (fun q => q.1 == t)).Nodup :=
          (List.nodup_reverse.mpr (List.Nodup.of_map Prod.fst hnd)).filter _
        rw [hfe, hxy] at hndf
        simp at hndf
  have heq := perm_length_le_one_eq hperm hlen
  simp only [cardLookup, find?_eq_head?_filter, heq]

/-- Helper: `any` is permutation-invariant. -/
theorem perm_any {α : Type} (p : α → Bool) {l1 l2 : List α} (h : l1.Perm l2) :
    l1.any p = l2.any p := by
  cases ha : l2.any p
  · rw [List.any_eq_false] at ha ⊢
    intro x hx
    exact ha x (h.mem_iff.mp hx)
  · rw [List.any_eq_true] at ha ⊢
    obtain ⟨x, hx, hpx⟩ := ha
    exact ⟨x, h.mem_iff.mpr hx, hpx⟩

/-- Helper: eligibility is permutation-invariant. -/
theorem eligibleB_perm {s1 s2 : List (String × Nat)} (hp : s1.Perm s2)
    (conds : List Condition) (used : List String) (t : String) :
    eligibleB s1 conds used t = eligibleB s2 conds used t := by
  simp only [eligibleB, othersHaveJoins]
  rw [perm_any _ hp]

end GssDB

namespace GssDB

/-- Helper: the strict-improvement fold of `firstMinBy`, started from a
candidate, returns a minimum over the candidate and the list. -/
theorem foldl_min_spec (cost : String → Nat) :
    ∀ (l : List String) (b : String),
      ∃ m, (List.foldl (fun acc t =>
          match acc with
          | none => some t
          | some b' => if cost t < cost b' then some t else acc) (some b) l) = some m ∧
        (m ∈ l ∨ m = b) ∧ cost m ≤ cost b ∧ ∀ x ∈ l, cost m ≤ cost x := by
  intro l
  induction l with
  | nil =>
      intro b
      exact ⟨b, rfl, Or.inr rfl, Nat.le_refl _, by simp⟩
  | cons x xs ih =>
      intro b
      simp only [List.foldl_cons]
      by_cases hc : cost x < cost b
      · rw [if_pos hc]
        obtain ⟨m, hm, hmem, hle, hall⟩ := ih x
        refine ⟨m, hm, ?_, Nat.le_trans hle (Nat.le_of_lt hc), ?_⟩
        · rcases hmem with h | h
          · exact Or.inl (List.mem_cons_of_mem x h)
          · exact Or.inl (h ▸ List.mem_cons_self x xs)
        · intro z hz
          rcases List.mem_cons.mp hz with h | h
          · exact h ▸ hle
          · exact hall z h
      · rw [if_neg hc]
        obtain ⟨m, hm, hmem, hle, hall⟩ := ih b
        refine ⟨m, hm, ?_, hle, ?_⟩
        · rcases hmem with h | h
          · exact Or.inl (List.mem_cons_of_mem x h)
          · exact Or.inr h
        · intro z hz
          rcases List.mem_cons.mp hz with h | h
          · rw [h]
            exact Nat.le_trans hle (Nat.le_of_not_lt hc)
          · exact hall z h

/-- Helper: on a non-empty list `firstMinBy` returns a member minimizing
the cost. -/
theorem firstMinBy_spec (cost : String → Nat) (l : List String) (hl : l ≠ []) :
    ∃ m, firstMinBy cost l = some m ∧ m ∈ l ∧ ∀ x ∈ l, cost m ≤ cost x := by
  cases l with
  | nil => exact absurd rfl hl
  | cons x xs =>
      obtain ⟨m, hm, hmem, hle, hall⟩ := foldl_min_spec cost xs x
      refine ⟨m, hm, ?_, ?_⟩
      · rcases hmem with h | h
        · exact List.mem_cons_of_mem x h
        · exact h ▸ List.mem_cons_self x xs
      · intro z hz
        rcases List.mem_cons.mp hz with h | h
        · exact h ▸ hle
        · exact hall z h

/-- Helper: with a cost that is injective on the candidates, `firstMinBy`
is permutation-invariant. -/
theorem firstMinBy_perm (cost : String → Nat) {l1 l2 : List String}
    (hp : l1.Perm l2)
    (hinj : ∀ x ∈ l1, ∀ y ∈ l1, cost x = cost y → x = y) :
    firstMinBy cost l1 = firstMinBy cost l2 := by
  cases hl1 : l1 with
  | nil =>
      have h2 : l2 = [] := by
        rw [hl1] at hp
        exact hp.nil_eq.symm
      rw [h2]
  | cons a t =>
      have hl1ne : l1 ≠ [] := by rw [hl1]; simp
      have hl2ne : l2 ≠ [] := by
        intro h2
        rw [h2] at hp
        exact absurd hp.eq_nil hl1ne
      obtain ⟨m1, hm1, hmem1, hall1⟩ := firstMinBy_spec cost l1 hl1ne
      obtain ⟨m2, hm2, hmem2, hall2⟩ := firstMinBy_spec cost l2 hl2ne
      rw [← hl1, hm1, hm2]
      have hm2l1 : m2 ∈ l1 := hp.mem_iff.mpr hmem2
      have hm1l2 : m1 ∈ l2 := hp.mem_iff.mp hmem1
      have h12 : cost m1 ≤ cost m2 := hall1 m2 hm2l1
      have h21 : cost m2 ≤ cost m1 := hall2 m1 hm1l2
      rw [hinj m1 hmem1 m2 hm2l1 (Nat.le_antisymm h12 h21)]

end GssDB

namespace GssDB

/-- Helper: with duplicate-free names, looking up a listed table returns
its recorded cardinality. -/
theorem cardLookup_self {s : List (String × Nat)}
    (hnd : (s.map Prod.fst).Nodup) {q : String × Nat} (hq : q ∈ s) :
    cardLookup s q.1 = q.2 := by
  have hinj := List.inj_on_of_nodup_map hnd
  have hqr : q ∈ s.reverse.filter (fun r => r.1 == q.1) := by
    rw [List.mem_filter]
    exact ⟨List.mem_reverse.mpr hq, by simp⟩
  rw [cardLookup, find?_eq_head?_filter]
  rcases hfe : s.reverse.filter (fun r => r.1 == q.1) with _ | ⟨x, xs⟩
  · rw [hfe] at hqr; cases hqr
  · have hx : x ∈ s.reverse.filter (fun r => r.1 == q.1) := by rw [hfe]; simp
    have hxq : x = q := by
      apply hinj (s.reverse_perm.mem_iff.mp (List.mem_of_mem_filter hx)) hq
      simpa using List.of_mem_filter hx
    rw [hfe, List.head?_cons, hxq]
    rfl

/-- Helper: the greedy per-round selection is permutation-invariant when
names and cardinalities are duplicate-free. -/
theorem selectBest_perm {s1 s2 : List (String × Nat)} (hp : s1.Perm s2)
    (hndf : (s1.map Prod.fst).Nodup) (hnds : (s1.map Prod.snd).Nodup)
    (conds : List Condition) (used : List String) :
    selectBest s1 conds used = selectBest s2 conds used := by
  have hcost : cardLookup s1 = cardLookup s2 :=
    funext (cardLookup_perm hp hndf)
  have hfe : (s1.map Prod.fst).filter (eligibleB s1 conds used) =
      (s1.map Prod.fst).filter (eligibleB s2 conds used) :=
    List.filter_congr (fun x _ => eligibleB_perm hp conds used x)
  have hcand : ((s1.map Prod.fst).filter (eligibleB s2 conds used)).Perm
      ((s2.map Prod.fst).filter (eligibleB s2 conds used)) :=
    (hp.map Prod.fst).filter _
  have hinj : ∀ x ∈ (s1.map Prod.fst).filter (eligibleB s2 conds used),
      ∀ y ∈ (s1.map Prod.fst).filter (eligibleB s2 conds used),
      cardLookup s1 x = cardLookup s1 y → x = y := by
    intro x hx y hy hxy
    obtain ⟨px, hpx, hpx1⟩ := List.mem_map.mp (List.mem_of_mem_filter hx)
    obtain ⟨py, hpy, hpy1⟩ := List.mem_map.mp (List.mem_of_mem_filter hy)
    rw [← hpx1, ← hpy1] at hxy ⊢
    rw [cardLookup_self hndf hpx, cardLookup_self hndf hpy] at hxy
    have := List.inj_on_of_nodup_map hnds hpx hpy hxy
    rw [this]
  rw [selectBest, selectBest, ← hcost, hfe]
  exact firstMinBy_perm (cardLookup s1) hcand hinj

/-- Helper: the greedy loop is congruent in the statistics argument as
long as lengths and per-round selections agree. -/
theorem greedyLoop_congr {s1 s2 : List (String × Nat)}
    (sorted : List (String × Nat)) (conds : List Condition)
    (hlen : s1.length = s2.length)
    (hsel : ∀ used, selectBest s1 conds used = selectBest s2 conds used) :
    ∀ (fuel : Nat) (res : List String),
      greedyLoop s1 sorted conds fuel res = greedyLoop s2 sorted conds fuel res := by
  intro fuel
  induction fuel with
  | zero => intro res; rfl
  | succ fuel ih =>
      intro res
      simp only [greedyLoop, hlen, hsel res]
      by_cases hlt : res.length < s2.length
      · rw [if_pos hlt, if_pos hlt]
        cases selectBest s2 conds res with
        | some t => exact ih (res ++ [t])
        | none =>
            cases (sorted.map Prod.fst).find? (fun s => !res.contains s) with
            | some s => exact ih (res ++ [s])
            | none => exact ih res
      · rw [if_neg hlt, if_neg hlt]

/-- C8 amended: the output of `greedy_join_order_optimization` is invariant
under permutations of the input statistics list *provided all estimated
cardinalities are pairwise distinct* (and table names are distinct): ties
are broken by input list position, so with ties the output does depend on
the input order. -/
theorem C8_amended_greedy_perm_invariant
    (s1 s2 : List (String × Nat)) (conds : List Condition)
    (hp : s1.Perm s2)
    (hndf : (s1.map Prod.fst).Nodup) (hnds : (s1.map Prod.snd).Nodup) :
    greedy_join_order_optimization s1 conds =
      greedy_join_order_optimization s2 conds := by
  have hlen := hp.length_eq
  have hsort := sortByCard_perm_eq hp hnds
  simp only [greedy_join_order_optimization, hlen]
  by_cases hle : s2.length ≤ 2
  · rw [if_pos hle, if_pos hle, hsort]
  · rw [if_neg hle, if_neg hle, hsort]
    exact greedyLoop_congr (sortByCard s2) conds hlen
      (fun used => selectBest_perm hp hndf hnds conds used) s2.length
      (((sortByCard s2).take 2).map Prod.fst)

/-- C8 counterexample: two statistics lists that are permutations of each
other (same cardinality for every table, same — empty — join-edge set) but
with the tied tables `a` and `b` listed in opposite orders produce
different greedy join orders, refuting pure-function-of-(cardinalities,
edges) invariance. -/
theorem C8_counterexample :
    statsX.Perm statsY ∧
    greedy_join_order_optimization statsX [] = ["c", "a", "b"] ∧
    greedy_join_order_optimization statsY [] = ["c", "b", "a"] ∧
    greedy_join_order_optimization statsX [] ≠
      greedy_join_order_optimization statsY [] := by
  refine ⟨by decide, by decide, by decide, by decide⟩

/-- C8 witness: the amended invariance applied to two permuted statistics
lists with pairwise-distinct cardinalities. -/
theorem C8_amended_greedy_perm_invariant_witness :
    greedy_join_order_optimization [("a", 10), ("b", 20), ("c", 5)] [] =
      greedy_join_order_optimization [("b", 20), ("a", 10), ("c", 5)] [] :=
  C8_amended_greedy_perm_invariant _ _ [] (by decide) (by decide) (by decide)

end GssDB
